import Mathlib

/-!
# ibazel: dependency resolver and watch/rebuild loop

A shallow embedding of `depresolver.go` (label-to-path mapping, `Resolve`) and of
`ibazel.go` (`FourTwenty`, `setupWatcher`, `rewatch`, `Run`), with the Go library
functions they call (`strings`, `path`) modelled on byte strings.

Conventions.
* A Go `string` is a sequence of bytes: `GoString := List UInt8`. `len` is `List.length`.
* A slice expression `s[lo:hi]` panics at run time unless `0 ≤ lo ≤ hi ≤ len(s)`; it is
  modelled by `slice`, which returns `none` for a panic. A function that can panic
  returns an `Option`.
* A `nil` slice of strings is the empty list; a `nil` error is `none`.
-/

namespace Ibazel

/-! ## Go strings -/

/-- A Go string: an immutable sequence of bytes. -/
abbrev GoString := List UInt8

/-- UTF-8 encoding of one code point, as the Go compiler stores a string literal. -/
def encodeRune (c : Char) : List UInt8 :=
  let n := c.toNat
  if n < 0x80 then [UInt8.ofNat n]
  else if n < 0x800 then [UInt8.ofNat (0xC0 + n / 64), UInt8.ofNat (0x80 + n % 64)]
  else if n < 0x10000 then
    [UInt8.ofNat (0xE0 + n / 4096), UInt8.ofNat (0x80 + n / 64 % 64), UInt8.ofNat (0x80 + n % 64)]
  else
    [UInt8.ofNat (0xF0 + n / 262144), UInt8.ofNat (0x80 + n / 4096 % 64),
     UInt8.ofNat (0x80 + n / 64 % 64), UInt8.ofNat (0x80 + n % 64)]

/-- The bytes of a string literal. -/
def lit (s : String) : GoString := s.toList.flatMap encodeRune

/-- Go `strings.HasPrefix(s, p)`. -/
def HasPrefix (s p : GoString) : Bool := p.isPrefixOf s

/-- Go `strings.Index(s, sub)` counted from offset `i`: the index of the first occurrence of
`sub`, or `-1`. -/
def indexFrom (sub : GoString) : GoString → Nat → Int
  | [], i => if sub.isPrefixOf [] then (i : Int) else -1
  | c :: t, i => if sub.isPrefixOf (c :: t) then (i : Int) else indexFrom sub t (i + 1)

/-- Go `strings.Index(s, sub)`. -/
def Index (s sub : GoString) : Int := indexFrom sub s 0

/-- Go slice expression `s[lo:hi]`; `none` is the run-time panic "slice bounds out of range". -/
def slice (s : GoString) (lo hi : Int) : Option GoString :=
  if 0 ≤ lo ∧ lo ≤ hi ∧ hi ≤ (s.length : Int) then some ((s.take hi.toNat).drop lo.toNat)
  else none

/-- Go slice expression `s[lo:]`, that is `s[lo:len(s)]`. -/
def sliceFrom (s : GoString) (lo : Int) : Option GoString := slice s lo (s.length : Int)

/-- Go `strings.Replace(s, old, new, n)` for a non-empty `old` and a count `n ≥ 0`: the first
`n` non-overlapping occurrences of `old` are replaced by `new`. -/
def Replace (s old new : GoString) : Nat → GoString
  | 0 => s
  | n + 1 =>
    if old = new then s
    else
      let j := Index s old
      if j < 0 then s
      else s.take j.toNat ++ new ++ Replace (s.drop (j.toNat + old.length)) old new n

/-- Go `strings.Split(s, sep)` for a one-byte separator: the substrings between the
occurrences of `sep`; `Split "" sep` is `[""]`. -/
def Split : GoString → UInt8 → List GoString
  | [], _ => [[]]
  | c :: t, sep =>
    if c = sep then [] :: Split t sep
    else
      match Split t sep with
      | [] => [[c]]
      | h :: r => (c :: h) :: r

/-! ## Go `path.Clean` and `path.Join`

The loop of `path.Clean` reads the path with an index `r` that, at the head of every
iteration, stands on the first byte of a path element or on the slash that ends one: an
iteration skips that slash, or consumes the whole element (`.`, `..`, or a name that is
copied up to the next slash). The loop is therefore a fold over the elements between the
slashes, `Split body '/'`, in which an empty element stands for a skipped slash. The output
buffer (`lazybuf`) is the byte list `out`, and `out.w` is its length. -/

/-- The inner loop of the `..` case of `path.Clean`: starting from write index `w`, step back
while `w > dotdot` and the byte at `w` is not `/`. -/
def backtrack (out : GoString) (dotdot : Nat) : Nat → Nat
  | 0 => 0
  | w + 1 => if dotdot < w + 1 ∧ out.getD (w + 1) 0 ≠ 47 then backtrack out dotdot w else w + 1

/-- One iteration of the loop of `path.Clean` on the path element `c` (the bytes between two
slashes). The state is the output buffer and the index `dotdot` below which `..` must not
backtrack. -/
def cleanStep (rooted : Bool) (st : GoString × Nat) (c : GoString) : GoString × Nat :=
  if c = [] then st
  else if c = [46] then st
  else if c = [46, 46] then
    if st.2 < st.1.length then
      (st.1.take (backtrack st.1 st.2 (st.1.length - 1)), st.2)
    else if rooted then st
    else
      let out := (if 0 < st.1.length then st.1 ++ [47] else st.1) ++ [46, 46]
      (out, out.length)
  else
    let out :=
      if (rooted && st.1.length != 1) || (!rooted && st.1.length != 0) then st.1 ++ [47]
      else st.1
    (out ++ c, st.2)

/-- The state of `path.Clean` before the loop. -/
def cleanInit (rooted : Bool) : GoString × Nat := if rooted then ([47], 1) else ([], 0)

/-- Go `path.Clean`: the shortest path equivalent to `path` by purely lexical processing.
Empty elements and `.` are dropped, `..` removes the element before it, a rooted path keeps
its leading slash, and the empty result is `.`. -/
def Clean (path : GoString) : GoString :=
  if path = [] then [46]
  else
    let rooted := path.head? = some 47
    let body := if rooted then path.drop 1 else path
    let out := ((Split body 47).foldl (cleanStep rooted) (cleanInit rooted)).1
    if out = [] then [46] else out

/-- Go `path.Join(elem...)`: the non-empty elements joined by slashes, then cleaned; the empty
string when every element is empty. -/
def Join (elem : List GoString) : GoString :=
  let parts := elem.filter (fun e => e ≠ [])
  if parts = [] then [] else Clean (List.intercalate [47] parts)

/-! ## Go `strings.TrimSpace` -/

/-- Go `utf8.RuneError`. -/
def RuneError : Nat := 0xFFFD

/-- A UTF-8 continuation byte. -/
def isCont (b : UInt8) : Bool := 0x80 ≤ b.toNat && b.toNat ≤ 0xBF

/-- Go `utf8.DecodeRuneInString`: the first rune of `s` and its width in bytes; an invalid
encoding is `(RuneError, 1)` and the empty string `(RuneError, 0)`. -/
def DecodeRune (s : GoString) : Nat × Nat :=
  match s with
  | [] => (RuneError, 0)
  | s0 :: t =>
    let b0 := s0.toNat
    if b0 < 0x80 then (b0, 1)
    else if b0 < 0xC2 then (RuneError, 1)
    else if b0 < 0xE0 then
      match t with
      | s1 :: _ => if isCont s1 then ((b0 % 32) * 64 + s1.toNat % 64, 2) else (RuneError, 1)
      | _ => (RuneError, 1)
    else if b0 < 0xF0 then
      match t with
      | s1 :: s2 :: _ =>
        let lo := if b0 = 0xE0 then 0xA0 else 0x80
        let hi := if b0 = 0xED then 0x9F else 0xBF
        if lo ≤ s1.toNat ∧ s1.toNat ≤ hi ∧ isCont s2 then
          ((b0 % 16) * 4096 + (s1.toNat % 64) * 64 + s2.toNat % 64, 3)
        else (RuneError, 1)
      | _ => (RuneError, 1)
    else if b0 < 0xF5 then
      match t with
      | s1 :: s2 :: s3 :: _ =>
        let lo := if b0 = 0xF0 then 0x90 else 0x80
        let hi := if b0 = 0xF4 then 0x8F else 0xBF
        if lo ≤ s1.toNat ∧ s1.toNat ≤ hi ∧ isCont s2 ∧ isCont s3 then
          ((b0 % 8) * 262144 + (s1.toNat % 64) * 4096 + (s2.toNat % 64) * 64 + s3.toNat % 64, 4)
        else (RuneError, 1)
      | _ => (RuneError, 1)
    else (RuneError, 1)

/-- The loop of Go `utf8.DecodeLastRuneInString` that looks for the start byte of the last
rune: from `start`, step back while `start ≥ lim` and the byte is a continuation byte. The
result is `start + 1` (so that `0` stands for `start = -1`). -/
def lastRuneStart (s : GoString) (lim : Nat) : Nat → Nat
  | 0 => 0
  | start + 1 =>
    if lim ≤ start ∧ isCont (s.getD start 0) then lastRuneStart s lim start else start + 1

/-- Go `utf8.DecodeLastRuneInString`: the last rune of `s` and its width in bytes. -/
def DecodeLastRune (s : GoString) : Nat × Nat :=
  match s.getLast? with
  | none => (RuneError, 0)
  | some last =>
    if last.toNat < 0x80 then (last.toNat, 1)
    else
      let fin := s.length
      let lim := fin - 4
      -- `start` begins at `fin - 2`; the stored value is `start + 1`
      let start := lastRuneStart s lim (fin - 1) - 1
      let d := DecodeRune (s.drop start)
      if start + d.2 ≠ fin then (RuneError, 1) else d

/-- Go `unicode.IsSpace`. -/
def IsSpace (r : Nat) : Bool :=
  r = 0x09 || r = 0x0A || r = 0x0B || r = 0x0C || r = 0x0D || r = 0x20 || r = 0x85 || r = 0xA0
    || r = 0x1680 || (0x2000 ≤ r && r ≤ 0x200A) || r = 0x2028 || r = 0x2029 || r = 0x202F
    || r = 0x205F || r = 0x3000

/-- Go `strings.TrimLeftFunc(s, unicode.IsSpace)`, with the number of runes still to read
bounded by `fuel` (each rune has at least one byte, so `len(s)` is enough). -/
def trimLeftSpace : Nat → GoString → GoString
  | 0, s => s
  | fuel + 1, s =>
    match s with
    | [] => []
    | _ :: _ =>
      let d := DecodeRune s
      if IsSpace d.1 then trimLeftSpace fuel (s.drop d.2) else s

/-- Go `strings.TrimRightFunc(s, unicode.IsSpace)`, with the number of runes still to read
bounded by `fuel`. -/
def trimRightSpace : Nat → GoString → GoString
  | 0, s => s
  | fuel + 1, s =>
    match s with
    | [] => []
    | _ :: _ =>
      let d := DecodeLastRune s
      if IsSpace d.1 then trimRightSpace fuel (s.take (s.length - d.2)) else s

/-- Go `strings.TrimSpace`: `s` without leading and trailing Unicode white space. -/
def TrimSpace (s : GoString) : GoString :=
  let l := trimLeftSpace s.length s
  trimRightSpace l.length l

/-! ## depresolver.go -/

/-- A Go `error` value returned by running a subprocess: either an `*exec.ExitError` (the
process started and exited unsuccessfully) or an error of any other type (the binary was not
found, an I/O failure, ...). -/
inductive GoError where
  | exitError (status : Nat)
  | other (msg : GoString)
  deriving DecidableEq, Repr

/-- The build tool as seen by `exec.Cmd.Output`: from the argument vector to the pair
`(stdout, err)`. -/
abbrev Tool := List GoString → GoString × Option GoError

def queryTmpl (target : GoString) : GoString :=
  lit "kind(\"source file\", deps(set(" ++ target ++ lit ")))"

def buildQueryTmpl (target : GoString) : GoString :=
  lit "buildfiles(deps(set(" ++ target ++ lit ")))"

def externalPrefix : GoString := lit "@"

def externalName : GoString := lit "external"

def labelPrefix : GoString := lit "//"

def workspaceFileName : GoString := lit "WORKSPACE"

structure CommandDepResolver where
  BazelBin : GoString
  BazelArgs : List GoString

/-- The argument vector of `bazelCmd`: the binary, the global flags, then `extraArgs`. -/
def bazelCmd (c : CommandDepResolver) (extraArgs : List GoString) : List GoString :=
  c.BazelBin :: (c.BazelArgs ++ extraArgs)

/-- The calls made so far: the argument vectors of the subprocesses started, in order. -/
abbrev CallLog := List (List GoString)

/-- Go `exec.Cmd.Output` for the build tool started with the argument vector `argv`: the
pair `(stdout, err)`, and the call is added to the log. -/
def Output (tool : Tool) (argv : List GoString) (log : CallLog) :
    (GoString × Option GoError) × CallLog :=
  (tool argv, log ++ [argv])

/-- The method `info`: runs `bazel info <noun>` and trims its standard output. -/
def info (c : CommandDepResolver) (tool : Tool) (noun : GoString) (log : CallLog) :
    (GoString × Option GoError) × CallLog :=
  let r := Output tool (bazelCmd c [lit "info", noun]) log
  match r.1.2 with
  | some e => (([], some e), r.2)
  | none => ((TrimSpace r.1.1, none), r.2)

/-- The body of the loop of `mapLabelsToFiles` for a non-empty label: the file of that label,
or `none` when a slice expression panics. -/
def labelToFile (label outputBase workspace : GoString) : Option GoString := do
  let (dir, label) ←
    if HasPrefix label externalPrefix then do
      let repoName ← slice label externalPrefix.length (Index label labelPrefix)
      let dir := Join [outputBase, externalName, repoName]
      let label ← sliceFrom label (repoName.length + externalPrefix.length)
      pure (dir, label)
    else pure (workspace, label)
  let rest ← sliceFrom label labelPrefix.length
  let label := Replace rest (lit ":") (lit "/") 1
  pure (Join [dir, label])

/-- The loop of `mapLabelsToFiles`, with `files` the slice built so far. -/
def mapLabelsLoop (outputBase workspace : GoString) :
    List GoString → List GoString → Option (List GoString)
  | [], files => some files
  | label :: labels, files =>
    if label = [] then mapLabelsLoop outputBase workspace labels files
    else
      match labelToFile label outputBase workspace with
      | none => none
      | some f => mapLabelsLoop outputBase workspace labels (files ++ [f])

/-- The method `mapLabelsToFiles`; `none` when it panics. -/
def mapLabelsToFiles (labels : List GoString) (outputBase workspace : GoString) :
    Option (List GoString) :=
  mapLabelsLoop outputBase workspace labels []

/-- The method `resolveQuery`: runs `bazel query <query>` and maps the lines of its standard
output; the result is `none` when the mapping panics. -/
def resolveQuery (c : CommandDepResolver) (tool : Tool) (query outputBase workspace : GoString)
    (log : CallLog) : Option (List GoString × Option GoError) × CallLog :=
  let r := Output tool (bazelCmd c [lit "query", query]) log
  match r.1.2 with
  | some e => (some ([], some e), r.2)
  | none =>
    ((mapLabelsToFiles (Split r.1.1 10) outputBase workspace).map (fun fs => (fs, none)), r.2)

/-- What one execution of `Resolve` does: the subprocesses it started, in order, and what it
returned (`none` when it panicked instead of returning). -/
structure ResolveRun where
  calls : CallLog
  result : Option (List GoString × List GoString × Option GoError)
  deriving DecidableEq

/-- The method `Resolve`. -/
def Resolve (c : CommandDepResolver) (tool : Tool) (target : GoString) : ResolveRun :=
  match info c tool (lit "output_base") [] with
  | ((_, some e), log) => ⟨log, some ([], [], some e)⟩
  | ((outputBase, none), log) =>
    match info c tool (lit "workspace") log with
    | ((_, some e), log) => ⟨log, some ([], [], some e)⟩
    | ((workspace, none), log) =>
      match resolveQuery c tool (queryTmpl target) outputBase workspace log with
      | (none, log) => ⟨log, none⟩
      | (some (_, some e), log) => ⟨log, some ([], [], some e)⟩
      | (some (sourceFiles, none), log) =>
        match resolveQuery c tool (buildQueryTmpl target) outputBase workspace log with
        | (none, log) => ⟨log, none⟩
        | (some (_, some e), log) => ⟨log, some ([], [], some e)⟩
        | (some (buildFiles, none), log) =>
          -- explicitly add the WORKSPACE file to the list of buildFiles we care about
          ⟨log, some (sourceFiles, buildFiles ++ [Join [workspace, workspaceFileName]], none)⟩

/-! ## ibazel.go

`Run` never returns normally; it talks to three collaborators (the `Resolver`, the build
command and the inotify watchers) and blocks in `select`. It is modelled as a transition
system: a state is a control point of `Run` together with the fields of the `ibazel` struct,
the watchers that are open in the operating system and the trace of the collaborator calls
made so far; an input is what the collaborator answers to the call made at that control point
(or, in `select`, the channel that delivered an event). Output written with `log` and `fmt`
and the fixed `time.Sleep` after an event are not part of the state. -/

/-- Which of the two watcher fields of the `ibazel` struct a watcher belongs to. -/
inductive Kind where
  | source
  | build
  deriving DecidableEq, Repr

/-- An `*inotify.Watcher`: the `id`-th watcher created by `inotify.NewWatcher`, created by
`setupWatcher` for the field `kind`. -/
structure Watcher where
  id : Nat
  kind : Kind
  deriving DecidableEq, Repr

/-- The fields of the `ibazel` struct that never change during `Run`. -/
structure Config where
  BazelBin : GoString
  BazelArgs : List GoString
  Command : GoString
  Targets : List GoString

/-- Control points of `Run`: the collaborator call that is about to be made. -/
inductive Pc where
  /-- About to call `computeFileSet`. -/
  | resolving
  /-- About to call `FourTwenty`. -/
  | building
  /-- In `setupWatcher` for field `k`, about to call `(*w).Close()`. -/
  | closing (k : Kind)
  /-- In `setupWatcher` for field `k`, about to call `inotify.NewWatcher()`. -/
  | creating (k : Kind)
  /-- In `setupWatcher` for field `k`, about to call `AddWatch(f, IN_CLOSE_WRITE)`; `rest`
  are the files after `f`. -/
  | adding (k : Kind) (f : GoString) (rest : List GoString)
  /-- Blocked in `select` on the two event channels. -/
  | waiting
  /-- The method `Run` has returned `err`. -/
  | returned (err : GoError)
  /-- The goroutine panicked inside `Resolver.Resolve`. -/
  | panicked
  deriving DecidableEq, Repr

/-- A call to a collaborator, or an event received in `select`. -/
inductive Action where
  | resolve (target : GoString)
  | build (argv : List GoString)
  | close (w : Watcher)
  | newWatcher (k : Kind)
  | addWatch (w : Option Watcher) (f : GoString)
  | sourceEvent
  | buildEvent
  deriving DecidableEq, Repr

/-- What the environment answers at a control point. -/
inductive Input where
  /-- The call `Resolver.Resolve` returned the triple, or panicked (`none`). -/
  | resolved (r : Option (List GoString × List GoString × Option GoError))
  /-- The call `cmd.Run()` of the build command returned `err`. -/
  | ran (err : Option GoError)
  /-- The call `Close()` returned `err`. -/
  | closed (err : Option GoError)
  /-- The call `inotify.NewWatcher()` returned a new watcher (`none`) or `(nil, err)`. -/
  | created (err : Option GoError)
  /-- The call `AddWatch` returned `err`. -/
  | added (err : Option GoError)
  /-- An event arrived on `sourceWatcher.Event`. -/
  | sourceEvent
  /-- An event arrived on `buildWatcher.Event`. -/
  | buildEvent
  deriving DecidableEq, Repr

structure State where
  pc : Pc
  sourceFiles : List GoString
  buildFiles : List GoString
  sourceWatcher : Option Watcher
  buildWatcher : Option Watcher
  /-- The watchers that are open (created and not closed). -/
  alive : List Watcher
  /-- The number of watchers created so far. -/
  created : Nat
  trace : List Action
  deriving DecidableEq, Repr

/-- The state in which `Run` is entered. -/
def State.init : State :=
  { pc := .resolving, sourceFiles := [], buildFiles := [], sourceWatcher := none,
    buildWatcher := none, alive := [], created := 0, trace := [] }

def State.watcher (s : State) : Kind → Option Watcher
  | .source => s.sourceWatcher
  | .build => s.buildWatcher

def State.setWatcher (s : State) (k : Kind) (w : Option Watcher) : State :=
  match k with
  | .source => { s with sourceWatcher := w }
  | .build => { s with buildWatcher := w }

/-- The files `rewatch` passes to `setupWatcher` together with the field `k`. -/
def State.files (s : State) : Kind → List GoString
  | .source => s.sourceFiles
  | .build => s.buildFiles

/-- The number of open watchers of kind `k`. -/
def State.aliveCount (s : State) (k : Kind) : Nat :=
  (s.alive.filter (fun w => w.kind = k)).length

/-- The method `FourTwenty`, given what `cmd.Run()` returned: an `*exec.ExitError` is
swallowed, anything else is returned. -/
def FourTwenty (runErr : Option GoError) : Option GoError :=
  match runErr with
  | some (.exitError _) => none
  | err => err

/-- The argument vector of the build command started by `FourTwenty`. -/
def buildArgv (cfg : Config) : List GoString :=
  cfg.BazelBin :: (cfg.BazelArgs ++ (cfg.Command :: cfg.Targets))

/-- The target expression `computeFileSet` passes to the resolver:
`strings.Join(i.Targets, " ")`. -/
def targetStr (cfg : Config) : GoString := List.intercalate [32] cfg.Targets

/-- The method `computeFileSet`, given what `Resolver.Resolve` returned: both file sets are
assigned from the result and the error is returned. -/
def computeFileSet (s : State) (ret : List GoString × List GoString × Option GoError) :
    State × Option GoError :=
  ({ s with sourceFiles := ret.1, buildFiles := ret.2.1 }, ret.2.2)

/-- Entry of `setupWatcher` for field `k`: the old watcher is closed when the field is not
`nil`, otherwise a watcher is created right away. -/
def setupWatcher (k : Kind) (s : State) : State :=
  match s.watcher k with
  | some _ => { s with pc := Pc.closing k }
  | none => { s with pc := Pc.creating k }

/-- After `setupWatcher` for field `k` has returned `nil`: `rewatch` goes on with the build field
after the source field, and `Run` goes to `select` after the build field. -/
def afterSetup (k : Kind) (s : State) : State :=
  match k with
  | .source => setupWatcher .build s
  | .build => { s with pc := Pc.waiting }

/-- The loop of `setupWatcher` over the files still to add. -/
def addLoop (k : Kind) (files : List GoString) (s : State) : State :=
  match files with
  | f :: rest => { s with pc := Pc.adding k f rest }
  | [] => afterSetup k s

/-- Entry of the method `rewatch`: `setupWatcher` for the source files comes first. -/
def rewatch (s : State) : State := setupWatcher Kind.source s

/-- One step of `Run`: the call of the current control point is made and answered by `i`.
`none` when `i` is not an answer to that call. -/
def step (cfg : Config) (s : State) (i : Input) : Option State :=
  match s.pc, i with
  | .resolving, .resolved r =>
    let s := { s with trace := s.trace ++ [Action.resolve (targetStr cfg)] }
    match r with
    | none => some { s with pc := Pc.panicked }
    | some ret =>
      match computeFileSet s ret with
      | (s, some e) => some { s with pc := Pc.returned e }
      | (s, none) => some { s with pc := Pc.building }
  | .building, .ran runErr =>
    let s := { s with trace := s.trace ++ [Action.build (buildArgv cfg)] }
    match FourTwenty runErr with
    | some e => some { s with pc := Pc.returned e }
    | none => some (rewatch s)
  | .closing k, .closed err =>
    match s.watcher k with
    | none => none
    | some w =>
      let s := { s with trace := s.trace ++ [Action.close w] }
      match err with
      | some e => some { s with pc := Pc.returned e }
      | none => some { s with alive := s.alive.erase w, pc := Pc.creating k }
  | .creating k, .created err =>
    let s := { s with trace := s.trace ++ [Action.newWatcher k] }
    match err with
    | some e => some { s.setWatcher k none with pc := Pc.returned e }
    | none =>
      let w : Watcher := ⟨s.created, k⟩
      let s := { s.setWatcher k (some w) with alive := s.alive ++ [w], created := s.created + 1 }
      some (addLoop k (s.files k) s)
  | .adding k f rest, .added err =>
    let s := { s with trace := s.trace ++ [Action.addWatch (s.watcher k) f] }
    match err with
    | some e => some { s with pc := Pc.returned e }
    | none => some (addLoop k rest s)
  | .waiting, .sourceEvent =>
    some { s with trace := s.trace ++ [Action.sourceEvent], pc := Pc.building }
  | .waiting, .buildEvent =>
    some { s with trace := s.trace ++ [Action.buildEvent], pc := Pc.resolving }
  | _, _ => none

/-- The state after the inputs `ins`, answered one after the other from state `s`. -/
def exec (cfg : Config) (s : State) : List Input → Option State
  | [] => some s
  | i :: ins =>
    match step cfg s i with
    | none => none
    | some s' => exec cfg s' ins

/-- The control points of the inner loop (`rebuild:`) of `Run`. -/
def Pc.inInnerLoop : Pc → Bool
  | .building | .closing _ | .creating _ | .adding _ _ _ | .waiting => true
  | _ => false

/-! ## Definitions that follow the wording of the claims -/

/-- The claim's wording of the colon substitution: only the first `old` byte is replaced. -/
def replaceFirst (old new : UInt8) : GoString → GoString
  | [] => []
  | c :: t => if c = old then new :: t else c :: replaceFirst old new t

/-- The claim's wording of a well-formed label: it starts with `//`, or it starts with `@`
and contains `//`. -/
def WellFormed (l : GoString) : Prop :=
  lit "//" <+: l ∨ (lit "@" <+: l ∧ lit "//" <:+: l)

/-- Two consecutive actions of a trace are routed when a source event is followed by the
build command and a build event by the resolver call. -/
def Routed (cfg : Config) (a b : Action) : Prop :=
  (a = Action.sourceEvent → b = Action.build (buildArgv cfg)) ∧
  (a = Action.buildEvent → b = Action.resolve (targetStr cfg))

/-- The watcher of field `k` is open. -/
def State.armed (s : State) (k : Kind) : Prop :=
  ∃ w, s.watcher k = some w ∧ w ∈ s.alive

/-- What holds of the two watcher fields and of the open watchers at every control point:
no watcher is open twice, every open watcher is the one its field points to, and a field
points to a watcher created for it. -/
structure State.Consistent (s : State) : Prop where
  nodup : s.alive.Nodup
  fresh : ∀ w ∈ s.alive, w.id < s.created
  held : ∀ w ∈ s.alive, s.watcher w.kind = some w
  kind : ∀ k w, s.watcher k = some w → w.kind = k

/-- What holds of the open watchers at each control point of `rewatch` and in `select`. -/
def State.Armed (s : State) : Prop :=
  match s.pc with
  | Pc.creating Kind.source => ¬ s.armed Kind.source
  | Pc.adding Kind.source _ _ => s.armed Kind.source
  | Pc.closing Kind.build => s.armed Kind.source
  | Pc.creating Kind.build => s.armed Kind.source ∧ ¬ s.armed Kind.build
  | Pc.adding Kind.build _ _ => s.armed Kind.source ∧ s.armed Kind.build
  | Pc.waiting => s.armed Kind.source ∧ s.armed Kind.build
  | _ => True

/-- The watcher fields before the first `rewatch`: both are `nil` and no watcher has been
created. -/
def State.Pristine (s : State) : Prop :=
  s.sourceWatcher = none ∧ s.buildWatcher = none ∧ s.created = 0

/-- What holds of the watch of the other field at the control points before the build field
is set up: outside the first iteration it is open. -/
def State.Round (s : State) : Prop :=
  match s.pc with
  | Pc.resolving => s.Pristine ∨ (s.armed Kind.source ∧ s.armed Kind.build)
  | Pc.building => s.Pristine ∨ (s.armed Kind.source ∧ s.armed Kind.build)
  | Pc.closing Kind.source => s.armed Kind.source ∧ s.armed Kind.build
  | Pc.creating Kind.source => s.Pristine ∨ s.armed Kind.build
  | Pc.adding Kind.source _ _ => s.buildWatcher = none ∨ s.armed Kind.build
  | Pc.closing Kind.build => s.armed Kind.build
  | _ => True

/-! ## Names for the parts of a resolution -/

/-- The output base `Resolve` works with: the trimmed output of `bazel info output_base`. -/
def outputBaseOf (c : CommandDepResolver) (tool : Tool) : GoString :=
  TrimSpace (tool (bazelCmd c [lit "info", lit "output_base"])).1

/-- The workspace `Resolve` works with: the trimmed output of `bazel info workspace`. -/
def workspaceOf (c : CommandDepResolver) (tool : Tool) : GoString :=
  TrimSpace (tool (bazelCmd c [lit "info", lit "workspace"])).1

/-- The lines printed by the source-file query. -/
def sourceLabels (c : CommandDepResolver) (tool : Tool) (target : GoString) : List GoString :=
  Split (tool (bazelCmd c [lit "query", queryTmpl target])).1 10

/-- The lines printed by the `buildfiles` query. -/
def buildLabels (c : CommandDepResolver) (tool : Tool) (target : GoString) : List GoString :=
  Split (tool (bazelCmd c [lit "query", buildQueryTmpl target])).1 10

/-- The path `Resolve` appends to the build files: `path.Join(workspace, "WORKSPACE")`. -/
def workspaceFile (c : CommandDepResolver) (tool : Tool) : GoString :=
  Join [workspaceOf c tool, workspaceFileName]

/-- The four argument vectors of `Resolve`, in the order of the calls. -/
def resolveCalls (c : CommandDepResolver) (target : GoString) : List (List GoString) :=
  [bazelCmd c [lit "info", lit "output_base"], bazelCmd c [lit "info", lit "workspace"],
    bazelCmd c [lit "query", queryTmpl target], bazelCmd c [lit "query", buildQueryTmpl target]]

/-- A build tool that answers the four calls of `Resolve` for `target` with `r1`, ..., `r4`
and fails on any other argument vector. -/
def scriptedTool (c : CommandDepResolver) (target : GoString)
    (r1 r2 r3 r4 : GoString × Option GoError) : Tool := fun argv =>
  if argv = bazelCmd c [lit "info", lit "output_base"] then r1
  else if argv = bazelCmd c [lit "info", lit "workspace"] then r2
  else if argv = bazelCmd c [lit "query", queryTmpl target] then r3
  else if argv = bazelCmd c [lit "query", buildQueryTmpl target] then r4
  else ([], some (GoError.other (lit "unexpected arguments")))

/-- The error the build tool answers to the `k`-th call of `Resolve` (counted from 0);
`none` when that call succeeds. -/
def callError (c : CommandDepResolver) (tool : Tool) (target : GoString) (k : Nat) :
    Option GoError :=
  match (resolveCalls c target)[k]? with
  | some argv => (tool argv).2
  | none => none

/-! ## The states of `path.Clean` -/

/-- A path element that `path.Clean` copies to its output: it is not empty, has no slash
and is neither `.` nor `..`. -/
def RealElem (c : GoString) : Prop :=
  c ≠ [] ∧ c ≠ [46] ∧ c ≠ [46, 46] ∧ 47 ∉ c

/-- The list of `n` elements `..`. -/
def dotdots (n : Nat) : List GoString := List.replicate n [46, 46]

/-- The output of `path.Clean` before the loop: the root slash of a rooted path. -/
def rootOf (rooted : Bool) : GoString := if rooted then [47] else []

/-- The state of `path.Clean` whose output holds `n` leading `..` elements followed by the
elements `cs`: the output buffer and the index `dotdot`. -/
def cleanState (rooted : Bool) (n : Nat) (cs : List GoString) : GoString × Nat :=
  (rootOf rooted ++ List.intercalate [47] (dotdots n ++ cs),
    (rootOf rooted).length + (List.intercalate [47] (dotdots n)).length)

/-- Whether `path.Clean` treats the path as rooted: its first byte is a slash. -/
def isRooted (path : GoString) : Bool := path.head? = some 47

/-- The part of the path the loop of `path.Clean` reads: the path without its root slash. -/
def cleanBody (path : GoString) : GoString := if isRooted path then path.drop 1 else path

/-- The state of `path.Clean` after the loop over the elements of `body`. -/
def cleanRun (rooted : Bool) (body : GoString) : GoString × Nat :=
  (Split body 47).foldl (cleanStep rooted) (cleanInit rooted)

/-- The result of `path.Clean` for the output buffer `out`: `.` when the buffer is empty. -/
def cleanResult (out : GoString) : GoString := if out = [] then [46] else out

/-! ## A concrete run: the target `//foo:bar` -/

/-- The configuration of `ibazel build //foo:bar`. -/
def fooConfig : Config := ⟨lit "bazel", [], lit "build", [lit "//foo:bar"]⟩

/-- The resolver returns the source set `[/ws/foo/bar.src]` and the build set
`[/ws/foo/BUILD, /ws/WORKSPACE]`. -/
def fooResolved : Input :=
  Input.resolved (some ([lit "/ws/foo/bar.src"], [lit "/ws/foo/BUILD", lit "/ws/WORKSPACE"], none))

/-- The first cycle of `Run`: the files are resolved, the build succeeds, both watchers are
created and every file is added; `Run` then blocks in `select`. -/
def fooFirstCycle : List Input :=
  [fooResolved, Input.ran none, Input.created none, Input.added none, Input.created none,
    Input.added none, Input.added none]

/-! ## Library lemmas -/

theorem lit_colon : lit ":" = [58] := by decide
theorem lit_slash : lit "/" = [47] := by decide
theorem labelPrefix_eq : labelPrefix = [47, 47] := by decide
theorem externalPrefix_eq : externalPrefix = [64] := by decide

theorem indexFrom_shift (sub s : GoString) (i : Nat) :
    indexFrom sub s i = if indexFrom sub s 0 < 0 then -1 else indexFrom sub s 0 + i := by
  induction s generalizing i with
  | nil => unfold indexFrom; split <;> simp
  | cons c t ih =>
    unfold indexFrom
    split
    · simp
    · rw [ih (i + 1), ih (0 + 1)]
      split
      · simp
      · have : ¬ (indexFrom sub t 0 + ((0 + 1 : Nat) : Int) < 0) := by omega
        simp only [this, if_false]
        push_cast
        omega

/-- Go `strings.Index` returns `-1` or the least `k` at which `sub` occurs. -/
theorem indexFrom_spec (sub s : GoString) :
    (indexFrom sub s 0 = -1 ∧ ∀ k, k ≤ s.length → ¬ sub <+: s.drop k) ∨
    (∃ k : Nat, indexFrom sub s 0 = k ∧ k ≤ s.length ∧ sub <+: s.drop k ∧
      ∀ j, j < k → ¬ sub <+: s.drop j) := by
  induction s with
  | nil =>
    unfold indexFrom
    by_cases h : sub.isPrefixOf [] = true
    · right; refine ⟨0, by simp [h], by simp, ?_, by simp⟩
      simpa using List.isPrefixOf_iff_prefix.mp h
    · left
      refine ⟨by simp [h], ?_⟩
      intro k _ hk
      apply h
      simpa using List.isPrefixOf_iff_prefix.mpr hk
  | cons c t ih =>
    unfold indexFrom
    by_cases h : sub.isPrefixOf (c :: t) = true
    · right; refine ⟨0, by simp [h], by simp, ?_, by simp⟩
      simpa using List.isPrefixOf_iff_prefix.mp h
    · have h0 : ¬ sub <+: c :: t := fun hp => h (List.isPrefixOf_iff_prefix.mpr hp)
      simp only [h, if_false]
      rw [indexFrom_shift]
      rcases ih with ⟨h1, h2⟩ | ⟨k, h1, h2, h3, h4⟩
      · left
        refine ⟨by simp [h1], ?_⟩
        intro k hk
        cases k with
        | zero => simpa using h0
        | succ k => simpa using h2 k (by simpa using hk)
      · right
        refine ⟨k + 1, ?_, by simpa using h2, by simpa using h3, ?_⟩
        · have : ¬ ((k : Int) < 0) := by omega
          simp [h1, this]
        · intro j hj
          cases j with
          | zero => simpa using h0
          | succ j => simpa using h4 j (by omega)

theorem Index_single_cons (o c : UInt8) (t : GoString) :
    Index (c :: t) [o] = if c = o then 0 else if Index t [o] < 0 then -1 else Index t [o] + 1 := by
  unfold Index
  rw [indexFrom]
  by_cases h : c = o
  · simp [h, List.isPrefixOf]
  · have : ¬ ([o].isPrefixOf (c :: t) = true) := by
      simp [List.isPrefixOf, h, Ne.symm h]
    simp only [this, h, if_false]
    rw [indexFrom_shift]
    simp

theorem Index_single_nil (o : UInt8) : Index [] [o] = -1 := by
  simp [Index, indexFrom, List.isPrefixOf]

theorem Index_single_ge (o : UInt8) (s : GoString) : Index s [o] = -1 ∨ 0 ≤ Index s [o] := by
  rcases indexFrom_spec [o] s with h | ⟨k, h, _⟩
  · left; exact h.1
  · right; unfold Index; omega

/-- Go `strings.Replace(s, old, new, 1)` with one-byte `old ≠ new` replaces the first `old`. -/
theorem Replace_one_eq_replaceFirst (o n : UInt8) (hne : o ≠ n) (s : GoString) :
    Replace s [o] [n] 1 = replaceFirst o n s := by
  have hon : ¬ ([o] = [n]) := by simpa using hne
  induction s with
  | nil => simp [Replace, hon, Index_single_nil, replaceFirst]
  | cons c t ih =>
    simp only [Replace, hon, if_false] at ih ⊢
    rw [Index_single_cons]
    by_cases h : c = o
    · simp [h, replaceFirst]
    · simp only [h, if_false, replaceFirst]
      rcases Index_single_ge o t with h1 | h1
      · simp [h1] at ih ⊢
        exact ih
      · have h2 : ¬ (Index t [o] < 0) := by omega
        have h3 : ¬ (Index t [o] + 1 < 0) := by omega
        simp only [h2, h3, if_false] at ih ⊢
        have h4 : (Index t [o] + 1).toNat = (Index t [o]).toNat + 1 := by omega
        rw [h4]
        simp only [List.take_succ_cons, List.cons_append, List.length_singleton]
        rw [← ih]
        simp [List.drop_succ_cons]

theorem replace_colon (s : GoString) :
    Replace s (lit ":") (lit "/") 1 = replaceFirst 58 47 s := by
  rw [lit_colon, lit_slash]
  exact Replace_one_eq_replaceFirst 58 47 (by decide) s

theorem slice_eq_some (s : GoString) (lo hi : Nat) (h1 : lo ≤ hi) (h2 : hi ≤ s.length) :
    slice s lo hi = some ((s.take hi).drop lo) := by
  unfold slice
  have : (0 : Int) ≤ lo ∧ (lo : Int) ≤ hi ∧ (hi : Int) ≤ s.length := by omega
  simp [this]

theorem sliceFrom_eq_some (s : GoString) (lo : Nat) (h : lo ≤ s.length) :
    sliceFrom s lo = some (s.drop lo) := by
  unfold sliceFrom
  rw [slice_eq_some s lo s.length h le_rfl]
  simp

theorem sliceFrom_isSome (s : GoString) (lo : Nat) :
    (sliceFrom s lo).isSome = true ↔ lo ≤ s.length := by
  unfold sliceFrom slice
  constructor
  · intro h
    by_contra hc
    have : ¬ ((0 : Int) ≤ lo ∧ (lo : Int) ≤ s.length ∧ (s.length : Int) ≤ s.length) := by omega
    rw [if_neg this] at h
    simp at h
  · intro h
    have : (0 : Int) ≤ lo ∧ (lo : Int) ≤ s.length ∧ (s.length : Int) ≤ s.length := by omega
    simp [this]

theorem slice_neg_one (s : GoString) (lo : Nat) : slice s lo (-1) = none := by
  unfold slice
  have : ¬ ((0 : Int) ≤ lo ∧ (lo : Int) ≤ -1 ∧ (-1 : Int) ≤ s.length) := by omega
  rw [if_neg this]

/-! ## The label mapper -/

theorem labelToFile_workspace (label ob ws : GoString)
    (h : HasPrefix label externalPrefix = false) :
    labelToFile label ob ws =
      (sliceFrom label 2).map (fun rest => Join [ws, Replace rest (lit ":") (lit "/") 1]) := by
  unfold labelToFile
  simp only [h, labelPrefix_eq]
  cases h3 : sliceFrom label 2 <;> simp [h3]

theorem labelToFile_external (label ob ws : GoString) (h : HasPrefix label externalPrefix = true) :
    labelToFile label ob ws =
      (slice label 1 (Index label labelPrefix)).bind (fun repoName =>
        (sliceFrom label ((repoName.length : Int) + 1)).bind (fun l =>
          (sliceFrom l 2).map (fun rest =>
            Join [Join [ob, externalName, repoName], Replace rest (lit ":") (lit "/") 1]))) := by
  unfold labelToFile
  simp only [h, labelPrefix_eq]
  simp only [externalPrefix_eq]
  cases h1 : slice label 1 (Index label [47, 47]) with
  | none => simp [h1]
  | some r =>
    cases h2 : sliceFrom label ((r.length : Int) + 1) with
    | none => simp [h1, h2]
    | some l =>
      cases h3 : sliceFrom l 2 with
      | none => simp [h1, h2, h3]
      | some rest => simp [h1, h2, h3]

theorem mapLabelsLoop_acc (ob ws : GoString) (labels files : List GoString) :
    mapLabelsLoop ob ws labels files = (mapLabelsLoop ob ws labels []).map (fun fs => files ++ fs) := by
  induction labels generalizing files with
  | nil => simp [mapLabelsLoop]
  | cons l ls ih =>
    unfold mapLabelsLoop
    by_cases h : l = []
    · simp only [h, if_true]; exact ih files
    · simp only [h, if_false]
      cases labelToFile l ob ws with
      | none => simp
      | some f =>
        simp only
        rw [ih (files ++ [f]), ih ([] ++ [f])]
        cases mapLabelsLoop ob ws ls [] <;> simp

theorem mapLabelsToFiles_nil (ob ws : GoString) : mapLabelsToFiles [] ob ws = some [] := rfl

theorem mapLabelsToFiles_cons (l : GoString) (ls : List GoString) (ob ws : GoString) :
    mapLabelsToFiles (l :: ls) ob ws =
      if l = [] then mapLabelsToFiles ls ob ws
      else (labelToFile l ob ws).bind (fun f => (mapLabelsToFiles ls ob ws).map (fun fs => f :: fs)) := by
  unfold mapLabelsToFiles
  rw [mapLabelsLoop]
  by_cases h : l = []
  · simp [h]
  · simp only [h, if_false]
    cases labelToFile l ob ws with
    | none => simp
    | some f =>
      simp only [Option.some_bind]
      rw [mapLabelsLoop_acc]
      simp

theorem mapLabelsToFiles_single (l ob ws : GoString) (h : l ≠ []) :
    mapLabelsToFiles [l] ob ws = (labelToFile l ob ws).map (fun f => [f]) := by
  rw [mapLabelsToFiles_cons]
  simp only [h, if_false, mapLabelsToFiles_nil]
  cases labelToFile l ob ws <;> simp

theorem mapLabelsToFiles_append (l1 l2 : List GoString) (ob ws : GoString) :
    mapLabelsToFiles (l1 ++ l2) ob ws =
      (mapLabelsToFiles l1 ob ws).bind (fun f1 =>
        (mapLabelsToFiles l2 ob ws).map (fun f2 => f1 ++ f2)) := by
  induction l1 with
  | nil => simp [mapLabelsToFiles_nil]
  | cons l ls ih =>
    rw [List.cons_append, mapLabelsToFiles_cons, mapLabelsToFiles_cons]
    by_cases h : l = []
    · simp only [h, if_true]; exact ih
    · simp only [h, if_false, ih]
      cases labelToFile l ob ws with
      | none => simp
      | some f =>
        cases mapLabelsToFiles ls ob ws with
        | none => simp
        | some f1 => cases mapLabelsToFiles l2 ob ws <;> simp

theorem isPrefixOf_single_cons (a c : UInt8) (t : GoString) :
    [a].isPrefixOf (c :: t) = decide (a = c) := by
  cases t <;> simp [List.isPrefixOf, beq_eq_decide]

theorem hasPrefix_at_iff (label : GoString) :
    HasPrefix label externalPrefix = true ↔ ∃ t, label = 64 :: t := by
  rw [externalPrefix_eq]
  unfold HasPrefix
  cases label with
  | nil =>
    constructor
    · intro h; exact absurd h (by decide)
    · rintro ⟨t, h⟩; exact absurd h (by simp)
  | cons c t =>
    rw [isPrefixOf_single_cons]
    constructor
    · intro h
      have hc : (64 : UInt8) = c := of_decide_eq_true h
      exact ⟨t, by rw [hc]⟩
    · rintro ⟨t2, h⟩
      have hc : c = 64 := (List.cons.inj h).1
      rw [hc]; decide

theorem labelToFile_slashes (rest ob ws : GoString) :
    labelToFile (47 :: 47 :: rest) ob ws = some (Join [ws, replaceFirst 58 47 rest]) := by
  have h : HasPrefix (47 :: 47 :: rest) externalPrefix = false := by
    rw [externalPrefix_eq]; unfold HasPrefix; rw [isPrefixOf_single_cons]; decide
  rw [labelToFile_workspace _ _ _ h]
  have : sliceFrom (47 :: 47 :: rest) 2 = some rest := by
    have := sliceFrom_eq_some (47 :: 47 :: rest) 2 (by simp)
    simpa using this
  rw [this, Option.map_some', replace_colon]

/-- C1. A workspace-relative label `"//" ++ rest` alone is mapped to exactly one path,
`path.Join(ws, rest')`, where `rest'` is `rest` with only its first colon replaced by a slash,
whatever the workspace and the output base are. With `ws = "/ws"`: `//a/b:c` gives
`/ws/a/b/c`, the abbreviated `//a/b` is not expanded and gives `/ws/a/b`, and `//a:b:c` gives
`/ws/a/b:c`. -/
theorem mapLabelsToFiles_workspace_label (ws ob rest : GoString) :
    mapLabelsToFiles [lit "//" ++ rest] ob ws = some [Join [ws, replaceFirst 58 47 rest]] ∧
    mapLabelsToFiles [lit "//a/b:c"] ob (lit "/ws") = some [lit "/ws/a/b/c"] ∧
    mapLabelsToFiles [lit "//a/b"] ob (lit "/ws") = some [lit "/ws/a/b"] ∧
    mapLabelsToFiles [lit "//a:b:c"] ob (lit "/ws") = some [lit "/ws/a/b:c"] := by
  have key : ∀ (w r : GoString),
      mapLabelsToFiles [lit "//" ++ r] ob w = some [Join [w, replaceFirst 58 47 r]] := by
    intro w r
    have h : lit "//" ++ r = 47 :: 47 :: r := by
      have : lit "//" = [47, 47] := by decide
      rw [this]; rfl
    rw [h, mapLabelsToFiles_single _ _ _ (by simp), labelToFile_slashes]
    rfl
  refine ⟨key ws rest, ?_, ?_, ?_⟩
  · have h : lit "//a/b:c" = lit "//" ++ lit "a/b:c" := by decide
    rw [h, key]
    have : Join [lit "/ws", replaceFirst 58 47 (lit "a/b:c")] = lit "/ws/a/b/c" := by decide
    rw [this]
  · have h : lit "//a/b" = lit "//" ++ lit "a/b" := by decide
    rw [h, key]
    have : Join [lit "/ws", replaceFirst 58 47 (lit "a/b")] = lit "/ws/a/b" := by decide
    rw [this]
  · have h : lit "//a:b:c" = lit "//" ++ lit "a:b:c" := by decide
    rw [h, key]
    have : Join [lit "/ws", replaceFirst 58 47 (lit "a:b:c")] = lit "/ws/a/b:c" := by decide
    rw [this]

theorem infix_iff_prefix_drop (sub s : GoString) :
    sub <:+: s ↔ ∃ k, k ≤ s.length ∧ sub <+: s.drop k := by
  constructor
  · rintro ⟨p, q, h⟩
    refine ⟨p.length, ?_, ?_⟩
    · rw [← h]; simp
    · rw [← h, List.append_assoc, List.drop_left]
      exact List.prefix_append _ _
  · rintro ⟨k, _, q, h⟩
    refine ⟨s.take k, q, ?_⟩
    rw [List.append_assoc, h, List.take_append_drop]

theorem Index_eq_neg_one_iff (s sub : GoString) : Index s sub = -1 ↔ ¬ sub <:+: s := by
  rw [infix_iff_prefix_drop]
  unfold Index
  rcases indexFrom_spec sub s with ⟨h1, h2⟩ | ⟨k, h1, h2, h3, _⟩
  · simp only [h1, true_iff]
    rintro ⟨k, hk, hp⟩
    exact h2 k hk hp
  · constructor
    · intro h; omega
    · intro h; exact absurd ⟨k, h2, h3⟩ h

theorem labelToFile_external_isSome (t ob ws : GoString) :
    (labelToFile (64 :: t) ob ws).isSome = true ↔ [47, 47] <:+: (64 :: t) := by
  have hp : HasPrefix (64 :: t) externalPrefix = true := (hasPrefix_at_iff _).mpr ⟨t, rfl⟩
  rw [labelToFile_external _ _ _ hp, labelPrefix_eq]
  unfold Index
  rcases indexFrom_spec [47, 47] (64 :: t) with ⟨h1, h2⟩ | ⟨k, h1, h2, h3, _⟩
  · rw [h1]
    have := slice_neg_one (64 :: t) 1
    simp only [Nat.cast_one] at this
    rw [this]
    simp only [Option.none_bind, Option.isSome_none, Bool.false_eq_true, false_iff]
    rw [infix_iff_prefix_drop]
    rintro ⟨k, hk, hpre⟩
    exact h2 k hk hpre
  · have hk : 1 ≤ k := by
      rcases k with _ | k
      · exfalso
        obtain ⟨q, hq⟩ := h3
        simp at hq
      · omega
    rw [h1]
    have hs := slice_eq_some (64 :: t) 1 k hk h2
    simp only [Nat.cast_one] at hs
    rw [hs, Option.some_bind]
    have hlen : (List.drop 1 (List.take k (64 :: t))).length = k - 1 := by
      rw [List.length_drop, List.length_take, Nat.min_eq_left h2]
    have hcast : (((List.drop 1 (List.take k (64 :: t))).length : Int) + 1) = ((k : Nat) : Int) := by
      rw [hlen]; omega
    rw [hcast, sliceFrom_eq_some _ k h2, Option.some_bind]
    obtain ⟨q, hq⟩ := h3
    have h2' : sliceFrom (List.drop k (64 :: t)) 2 = some (List.drop 2 (List.drop k (64 :: t))) := by
      have := sliceFrom_eq_some (List.drop k (64 :: t)) 2 (by rw [← hq]; simp)
      simpa using this
    rw [h2']
    simp only [Option.map_some', Option.isSome_some, true_iff]
    rw [infix_iff_prefix_drop]
    exact ⟨k, h2, q, hq⟩

/-- C10. With slicing partial, `mapLabelsToFiles` on a single label yields a result (no
out-of-range slice) if and only if the label is empty, or starts with `@` and contains `//`,
or does not start with `@` and has at least two bytes. So the lines `x` and `@repo` make the
mapper panic, and a label of two or more bytes that does not start with `@` loses its first
two bytes whether or not they are `//`. -/
theorem mapLabelsToFiles_panic_iff (label ob ws : GoString) :
    ((mapLabelsToFiles [label] ob ws).isSome = true ↔
      label = [] ∨ (HasPrefix label (lit "@") = true ∧ lit "//" <:+: label) ∨
        (HasPrefix label (lit "@") = false ∧ 2 ≤ label.length)) ∧
    mapLabelsToFiles [lit "x"] ob ws = none ∧
    mapLabelsToFiles [lit "@repo"] ob ws = none ∧
    (HasPrefix label (lit "@") = false → 2 ≤ label.length →
      mapLabelsToFiles [label] ob ws
        = some [Join [ws, replaceFirst 58 47 (label.drop 2)]]) := by
  have hat : lit "@" = externalPrefix := by decide
  have hss : lit "//" = [47, 47] := by decide
  rw [hat, hss]
  have hws : ∀ l : GoString, HasPrefix l externalPrefix = false → 2 ≤ l.length →
      mapLabelsToFiles [l] ob ws = some [Join [ws, replaceFirst 58 47 (l.drop 2)]] := by
    intro l h1 h2
    have hne : l ≠ [] := by rintro rfl; simp at h2
    rw [mapLabelsToFiles_single _ _ _ hne, labelToFile_workspace _ _ _ h1]
    have := sliceFrom_eq_some l 2 h2
    simp only [Nat.cast_ofNat] at this
    rw [this, Option.map_some', Option.map_some', replace_colon]
  refine ⟨?_, ?_, ?_, hws label⟩
  · by_cases hne : label = []
    · subst hne; simp [mapLabelsToFiles_cons, mapLabelsToFiles_nil]
    · rw [mapLabelsToFiles_single _ _ _ hne, Option.isSome_map']
      cases hp : HasPrefix label externalPrefix with
      | true =>
        obtain ⟨t, rfl⟩ := (hasPrefix_at_iff _).mp hp
        rw [labelToFile_external_isSome]
        simp [hne]
      | false =>
        rw [labelToFile_workspace _ _ _ hp, Option.isSome_map']
        have := sliceFrom_isSome label 2
        simp only [Nat.cast_ofNat] at this
        rw [this]
        simp [hne]
  · have hx : lit "x" ≠ [] := by decide
    rw [mapLabelsToFiles_single _ _ _ hx]
    have : labelToFile (lit "x") ob ws = none := by
      rw [labelToFile_workspace _ _ _ (by decide)]
      have : sliceFrom (lit "x") 2 = none := by decide
      rw [this]; rfl
    rw [this]; rfl
  · have hx : lit "@repo" ≠ [] := by decide
    rw [mapLabelsToFiles_single _ _ _ hx]
    have : labelToFile (lit "@repo") ob ws = none := by
      rw [labelToFile_external _ _ _ (by decide)]
      have : slice (lit "@repo") 1 (Index (lit "@repo") labelPrefix) = none := by decide
      rw [this]; rfl
    rw [this]; rfl

theorem labelToFile_wellFormed (l ob ws : GoString) (h : WellFormed l) :
    ∃ f, labelToFile l ob ws = some f := by
  have hss : lit "//" = [47, 47] := by decide
  have hat : lit "@" = [64] := by decide
  unfold WellFormed at h
  rw [hss, hat] at h
  rcases h with ⟨q, hq⟩ | ⟨⟨q, hq⟩, hin⟩
  · subst hq
    exact ⟨_, labelToFile_slashes q ob ws⟩
  · subst hq
    have := (labelToFile_external_isSome q ob ws).mpr hin
    exact Option.isSome_iff_exists.mp this

/-- C3. When every non-empty label is well formed, `mapLabelsToFiles` returns (does not
panic), drops exactly the empty strings and maps the other labels one-to-one in order: the
result is as long as the list of non-empty labels and its i-th path is the path of the i-th
non-empty label mapped on its own; mapping distributes over concatenation. The split query
output `["//a:b", "", "//c:d", ""]` yields the paths of `a/b` and `c/d` under the workspace,
`["/ws/a/b", "/ws/c/d"]` for the workspace `/ws`. -/
theorem mapLabelsToFiles_drops_empty (labels : List GoString) (ob ws : GoString)
    (h : ∀ l ∈ labels, l ≠ [] → WellFormed l) :
    (∃ files, mapLabelsToFiles labels ob ws = some files ∧
      files.length = (labels.filter (fun l => l ≠ [])).length ∧
      List.Forall₂ (fun l f => mapLabelsToFiles [l] ob ws = some [f])
        (labels.filter (fun l => l ≠ [])) files ∧
      ∀ l1 l2, labels = l1 ++ l2 →
        ∃ f1 f2, mapLabelsToFiles l1 ob ws = some f1 ∧ mapLabelsToFiles l2 ob ws = some f2 ∧
          files = f1 ++ f2) ∧
    mapLabelsToFiles [lit "//a:b", lit "", lit "//c:d", lit ""] ob ws
      = some [Join [ws, lit "a/b"], Join [ws, lit "c/d"]] ∧
    mapLabelsToFiles [lit "//a:b", lit "", lit "//c:d", lit ""] ob (lit "/ws")
      = some [lit "/ws/a/b", lit "/ws/c/d"] := by
  have main : ∀ ls : List GoString, (∀ l ∈ ls, l ≠ [] → WellFormed l) →
      ∃ files, mapLabelsToFiles ls ob ws = some files ∧
        List.Forall₂ (fun l f => mapLabelsToFiles [l] ob ws = some [f])
          (ls.filter (fun l => l ≠ [])) files := by
    intro ls
    induction ls with
    | nil => intro _; exact ⟨[], rfl, by simp⟩
    | cons l ls ih =>
      intro hl
      obtain ⟨fs, hfs, hall⟩ := ih (fun x hx => hl x (List.mem_cons_of_mem _ hx))
      rw [mapLabelsToFiles_cons]
      by_cases hne : l = []
      · refine ⟨fs, by simp [hne, hfs], ?_⟩
        simpa [hne] using hall
      · obtain ⟨f, hf⟩ := labelToFile_wellFormed l ob ws (hl l (List.mem_cons_self _ _) hne)
        refine ⟨f :: fs, by simp [hne, hf, hfs], ?_⟩
        have h1 : mapLabelsToFiles [l] ob ws = some [f] := by
          rw [mapLabelsToFiles_single _ _ _ hne, hf]; rfl
        have hflt : List.filter (fun l => decide (l ≠ [])) (l :: ls)
            = l :: List.filter (fun l => decide (l ≠ [])) ls := by
          simp [List.filter_cons, hne]
        rw [hflt]
        exact List.Forall₂.cons h1 hall
  have ex : ∀ w : GoString, mapLabelsToFiles [lit "//a:b", lit "", lit "//c:d", lit ""] ob w
      = some [Join [w, lit "a/b"], Join [w, lit "c/d"]] := by
    intro w
    have e1 : lit "//a:b" = 47 :: 47 :: lit "a:b" := by decide
    have e2 : lit "//c:d" = 47 :: 47 :: lit "c:d" := by decide
    have e3 : lit "" = [] := by decide
    have e4 : replaceFirst 58 47 (lit "a:b") = lit "a/b" := by decide
    have e5 : replaceFirst 58 47 (lit "c:d") = lit "c/d" := by decide
    rw [e1, e2, e3]
    simp only [mapLabelsToFiles_cons, mapLabelsToFiles_nil, labelToFile_slashes, e4, e5]
    simp
  refine ⟨?_, ex ws, ?_⟩
  · obtain ⟨files, hfiles, hall⟩ := main labels h
    refine ⟨files, hfiles, hall.length_eq.symm, hall, ?_⟩
    intro l1 l2 hsplit
    subst hsplit
    obtain ⟨f1, hf1, _⟩ := main l1 (fun x hx => h x (List.mem_append_left _ hx))
    obtain ⟨f2, hf2, _⟩ := main l2 (fun x hx => h x (List.mem_append_right _ hx))
    refine ⟨f1, f2, hf1, hf2, ?_⟩
    rw [mapLabelsToFiles_append, hf1, hf2] at hfiles
    simpa using hfiles.symm
  · rw [ex]
    have : [Join [lit "/ws", lit "a/b"], Join [lit "/ws", lit "c/d"]]
        = [lit "/ws/a/b", lit "/ws/c/d"] := by decide
    rw [this]

theorem mapLabelsToFiles_drops_empty_witness :
    (∀ l ∈ [lit "//a:b", lit "", lit "@r//c:d", lit ""], l ≠ [] → WellFormed l) ∧
    ∃ files, mapLabelsToFiles [lit "//a:b", lit "", lit "@r//c:d", lit ""] (lit "/ob") (lit "/ws")
        = some files ∧ files.length = 2 := by
  have hwf : ∀ l ∈ [lit "//a:b", lit "", lit "@r//c:d", lit ""], l ≠ [] → WellFormed l := by
    intro l hl hne
    simp only [List.mem_cons, List.mem_singleton, List.not_mem_nil, or_false] at hl
    rcases hl with rfl | rfl | rfl | rfl
    · exact Or.inl ⟨lit "a:b", by decide⟩
    · exact absurd (by decide) hne
    · exact Or.inr ⟨⟨lit "r//c:d", by decide⟩, ⟨lit "@r", lit "c:d", by decide⟩⟩
    · exact absurd (by decide) hne
  refine ⟨hwf, ?_⟩
  obtain ⟨⟨files, h1, h2, _⟩, _⟩ :=
    mapLabelsToFiles_drops_empty [lit "//a:b", lit "", lit "@r//c:d", lit ""] (lit "/ob") (lit "/ws") hwf
  exact ⟨files, h1, by rw [h2]; decide⟩

/-! ## The transition system of `Run` -/

theorem exec_nil (cfg : Config) (s : State) : exec cfg s [] = some s := rfl

theorem exec_cons (cfg : Config) (s : State) (i : Input) (ins : List Input) :
    exec cfg s (i :: ins) = (step cfg s i).bind (fun s' => exec cfg s' ins) := by
  rw [exec]
  cases step cfg s i <;> rfl

theorem exec_append (cfg : Config) (s : State) (l1 l2 : List Input) :
    exec cfg s (l1 ++ l2) = (exec cfg s l1).bind (fun s' => exec cfg s' l2) := by
  induction l1 generalizing s with
  | nil => simp [exec_nil]
  | cons i l1 ih =>
    rw [List.cons_append, exec_cons, exec_cons]
    cases step cfg s i with
    | none => simp
    | some s' => simp [ih]

/-- An invariant of the steps holds after every execution. -/
theorem exec_invariant (cfg : Config) (P : State → Prop)
    (hstep : ∀ s i s', P s → step cfg s i = some s' → P s')
    (s : State) (ins : List Input) (s' : State) (h0 : P s) (h : exec cfg s ins = some s') :
    P s' := by
  induction ins generalizing s with
  | nil =>
    rw [exec_nil] at h
    cases h
    exact h0
  | cons i ins ih =>
    rw [exec_cons] at h
    cases hs : step cfg s i with
    | none => rw [hs] at h; simp at h
    | some s1 =>
      rw [hs] at h
      exact ih s1 (hstep s i s1 h0 hs) h

/-- The function `setupWatcher` only moves the control point, to the `Close` call or the `NewWatcher`
call of its field. -/
theorem setupWatcher_eq (k : Kind) (s : State) :
    setupWatcher k s = { s with pc := (setupWatcher k s).pc } ∧
      ((setupWatcher k s).pc = Pc.closing k ∨ (setupWatcher k s).pc = Pc.creating k) := by
  unfold setupWatcher
  split <;> simp

theorem afterSetup_eq (k : Kind) (s : State) :
    afterSetup k s = { s with pc := (afterSetup k s).pc } ∧
      ((afterSetup k s).pc = Pc.closing .build ∨ (afterSetup k s).pc = Pc.creating .build ∨
        (afterSetup k s).pc = Pc.waiting) := by
  unfold afterSetup
  cases k
  · have := setupWatcher_eq .build s
    exact ⟨this.1, by rcases this.2 with h | h <;> simp [h]⟩
  · simp

theorem addLoop_eq (k : Kind) (files : List GoString) (s : State) :
    addLoop k files s = { s with pc := (addLoop k files s).pc } ∧
      ((addLoop k files s).pc = Pc.closing .build ∨ (addLoop k files s).pc = Pc.creating .build ∨
        (addLoop k files s).pc = Pc.waiting ∨
        ∃ f rest, (addLoop k files s).pc = Pc.adding k f rest) := by
  unfold addLoop
  cases files with
  | nil =>
    have := afterSetup_eq k s
    exact ⟨this.1, by rcases this.2 with h | h | h <;> simp [h]⟩
  | cons f rest => simp

/-- Every step makes exactly one call: it appends one action to the trace. The action is
the resolver call at `resolving` and the build command at `building`; an event is appended
only by leaving `waiting`, the source event for `building` and the build event for
`resolving`. -/
theorem step_trace (cfg : Config) (s s' : State) (i : Input) (h : step cfg s i = some s') :
    ∃ a, s'.trace = s.trace ++ [a] ∧
      (s.pc = Pc.resolving → a = Action.resolve (targetStr cfg)) ∧
      (s.pc = Pc.building → a = Action.build (buildArgv cfg)) ∧
      (a = Action.sourceEvent → s'.pc = Pc.building) ∧
      (a = Action.buildEvent → s'.pc = Pc.resolving) := by
  obtain ⟨pc, sf, bf, sw, bw, al, cr, tr⟩ := s
  cases pc <;> cases i <;> simp only [step, rewatch] at h <;> try (simp at h; done)
  · -- resolving
    rename_i r
    rcases r with _ | ⟨a, b, _ | e⟩ <;> simp only [computeFileSet, Option.some.injEq] at h <;> subst h <;>
      exact ⟨_, rfl, by simp⟩
  · -- building
    rename_i r
    cases hf : FourTwenty r with
    | some e => rw [hf] at h; simp only [Option.some.injEq] at h; subst h; exact ⟨_, rfl, by simp⟩
    | none =>
      rw [hf] at h; simp only [Option.some.injEq] at h; subst h
      have := setupWatcher_eq .source
        { pc := Pc.building, sourceFiles := sf, buildFiles := bf, sourceWatcher := sw,
          buildWatcher := bw, alive := al, created := cr,
          trace := tr ++ [Action.build (buildArgv cfg)] }
      rw [this.1]
      refine ⟨_, rfl, by simp, by simp, by simp, by simp⟩
  · -- closing
    rename_i k err
    cases hw : State.watcher
        { pc := Pc.closing k, sourceFiles := sf, buildFiles := bf, sourceWatcher := sw,
          buildWatcher := bw, alive := al, created := cr, trace := tr } k with
    | none => rw [hw] at h; simp at h
    | some w =>
      rw [hw] at h
      cases err <;> simp only [Option.some.injEq] at h <;> subst h <;> exact ⟨_, rfl, by simp⟩
  · -- creating
    rename_i k err
    cases err with
    | some e =>
      simp only [Option.some.injEq] at h; subst h
      cases k <;> exact ⟨_, rfl, by simp [State.setWatcher]⟩
    | none =>
      simp only [Option.some.injEq] at h; subst h
      rw [(addLoop_eq _ _ _).1]
      cases k <;> exact ⟨_, rfl, by simp [State.setWatcher]⟩
  · -- adding
    rename_i k f rest err
    cases err with
    | some e => simp only [Option.some.injEq] at h; subst h; exact ⟨_, rfl, by simp⟩
    | none =>
      simp only [Option.some.injEq] at h; subst h
      rw [(addLoop_eq _ _ _).1]
      exact ⟨_, rfl, by simp⟩
  · simp only [Option.some.injEq] at h; subst h; exact ⟨_, rfl, by simp⟩
  · simp only [Option.some.injEq] at h; subst h; exact ⟨_, rfl, by simp⟩

/-- After every execution the trace is routed, and the control point after an event is the
one the event routes to. -/
theorem exec_routed (cfg : Config) (ins : List Input) (s : State)
    (h : exec cfg State.init ins = some s) :
    List.Chain' (Routed cfg) s.trace ∧
      (s.trace.getLast? = some Action.sourceEvent → s.pc = Pc.building) ∧
      (s.trace.getLast? = some Action.buildEvent → s.pc = Pc.resolving) := by
  refine exec_invariant cfg
    (fun s => List.Chain' (Routed cfg) s.trace ∧
      (s.trace.getLast? = some Action.sourceEvent → s.pc = Pc.building) ∧
      (s.trace.getLast? = some Action.buildEvent → s.pc = Pc.resolving))
    ?_ State.init ins s ?_ h
  · intro s i s' ⟨hc, hs, hb⟩ hstep
    obtain ⟨a, ht, hr, hbd, hse, hbe⟩ := step_trace cfg s s' i hstep
    rw [ht]
    refine ⟨?_, ?_, ?_⟩
    · rw [List.chain'_append]
      refine ⟨hc, List.chain'_singleton a, ?_⟩
      intro x hx y hy
      simp only [List.head?_cons, Option.mem_def, Option.some.injEq] at hy
      subst hy
      have hx' : s.trace.getLast? = some x := hx
      constructor
      · intro hxe; subst hxe; exact hbd (hs hx')
      · intro hxe; subst hxe; exact hr (hb hx')
    · intro hl
      rw [List.getLast?_concat, Option.some.injEq] at hl
      exact hse hl
    · intro hl
      rw [List.getLast?_concat, Option.some.injEq] at hl
      exact hbe hl
  · simp [State.init]

/-- C6. In every execution of `Run`: the action right after a source-watch event is the
build command (no resolver call in between), and the step that receives the event leaves
`sourceFiles` and `buildFiles` as they are; the action right after a build-watch event is
the call of `Resolver.Resolve`, which replaces both file sets together, so the build command
is never run between a build-watch event and the following `Resolve`. -/
theorem Run_event_routing (cfg : Config) (ins : List Input) (s : State)
    (h : exec cfg State.init ins = some s) :
    (∀ a, [Action.sourceEvent, a] <:+: s.trace → a = Action.build (buildArgv cfg)) ∧
    (∀ a, [Action.buildEvent, a] <:+: s.trace → a = Action.resolve (targetStr cfg)) ∧
    (s.pc = Pc.waiting →
      step cfg s Input.sourceEvent
        = some { s with trace := s.trace ++ [Action.sourceEvent], pc := Pc.building } ∧
      step cfg s Input.buildEvent
        = some { s with trace := s.trace ++ [Action.buildEvent], pc := Pc.resolving }) ∧
    (s.pc = Pc.building → ∀ i s', step cfg s i = some s' →
      s'.trace = s.trace ++ [Action.build (buildArgv cfg)] ∧
        s'.sourceFiles = s.sourceFiles ∧ s'.buildFiles = s.buildFiles) ∧
    (s.pc = Pc.resolving → ∀ i s', step cfg s i = some s' →
      s'.trace = s.trace ++ [Action.resolve (targetStr cfg)] ∧
        ∃ r, i = Input.resolved r ∧
          ∀ sf bf e, r = some (sf, bf, e) → s'.sourceFiles = sf ∧ s'.buildFiles = bf) := by
  obtain ⟨hc, _, _⟩ := exec_routed cfg ins s h
  refine ⟨?_, ?_, ?_, ?_, ?_⟩
  · intro a ha
    have := List.chain'_pair.mp ( List.Chain'.infix hc ha)
    exact this.1 rfl
  · intro a ha
    have := List.chain'_pair.mp ( List.Chain'.infix hc ha)
    exact this.2 rfl
  · intro hpc
    obtain ⟨pc, sf, bf, sw, bw, al, cr, tr⟩ := s
    simp only at hpc
    subst hpc
    exact ⟨rfl, rfl⟩
  · intro hpc i s' hstep
    obtain ⟨pc, sf, bf, sw, bw, al, cr, tr⟩ := s
    simp only at hpc
    subst hpc
    cases i <;> simp only [step, rewatch] at hstep <;> try (exact Option.noConfusion hstep)
    rename_i r
    cases hf : FourTwenty r with
    | some e => rw [hf] at hstep; simp only [Option.some.injEq] at hstep; subst hstep; simp
    | none =>
      rw [hf] at hstep; simp only [Option.some.injEq] at hstep; subst hstep
      rw [(setupWatcher_eq _ _).1]
      simp
  · intro hpc i s' hstep
    obtain ⟨pc, sf, bf, sw, bw, al, cr, tr⟩ := s
    simp only at hpc
    subst hpc
    cases i <;> simp only [step, rewatch] at hstep <;> try (exact Option.noConfusion hstep)
    rename_i r
    rcases r with _ | ⟨a, b, _ | e⟩ <;>
      simp only [computeFileSet, Option.some.injEq] at hstep <;> subst hstep <;>
      simp

theorem Run_event_routing_witness :
    ∃ s, exec fooConfig State.init (fooFirstCycle ++ [Input.sourceEvent, Input.ran none]) = some s ∧
      s.trace.drop 7
        = [Action.sourceEvent, Action.build [lit "bazel", lit "build", lit "//foo:bar"]] ∧
      ∀ a, [Action.sourceEvent, a] <:+: s.trace → a = Action.build (buildArgv fooConfig) :=
  ⟨Option.get (exec fooConfig State.init (fooFirstCycle ++ [Input.sourceEvent, Input.ran none]))
      (by decide),
    by simp, by decide,
    (Run_event_routing fooConfig (fooFirstCycle ++ [Input.sourceEvent, Input.ran none]) _
      (by simp)).1⟩

theorem setWatcher_files (s : State) (k : Kind) (w : Option Watcher) :
    (s.setWatcher k w).sourceFiles = s.sourceFiles ∧ (s.setWatcher k w).buildFiles = s.buildFiles ∧
      (s.setWatcher k w).pc = s.pc ∧ (s.setWatcher k w).trace = s.trace ∧
      (s.setWatcher k w).alive = s.alive ∧ (s.setWatcher k w).created = s.created := by
  cases k <;> simp [State.setWatcher]

/-- When every `AddWatch` succeeds, the loop of `setupWatcher` runs to its end. -/
theorem exec_addLoop (cfg : Config) (k : Kind) (files : List GoString) (s : State) :
    ∃ ins s1, s1.sourceFiles = s.sourceFiles ∧ s1.buildFiles = s.buildFiles ∧
      exec cfg (addLoop k files s) ins = some (afterSetup k s1) := by
  induction files generalizing s with
  | nil => exact ⟨[], s, rfl, rfl, rfl⟩
  | cons f fs ih =>
    obtain ⟨ins, s1, h1, h2, h3⟩ := ih
      { s with pc := Pc.adding k f fs, trace := s.trace ++ [Action.addWatch (s.watcher k) f] }
    refine ⟨Input.added none :: ins, s1, h1, h2, ?_⟩
    rw [exec_cons]
    have : step cfg (addLoop k (f :: fs) s) (Input.added none) = some (addLoop k fs
        { s with pc := Pc.adding k f fs,
                 trace := s.trace ++ [Action.addWatch (s.watcher k) f] }) := by
      cases k <;> rfl
    rw [this, Option.some_bind, h3]

/-- When `Close`, `NewWatcher` and every `AddWatch` succeed, `setupWatcher` returns `nil`. -/
theorem exec_setupWatcher (cfg : Config) (k : Kind) (s : State) :
    ∃ ins s1, s1.sourceFiles = s.sourceFiles ∧ s1.buildFiles = s.buildFiles ∧
      exec cfg (setupWatcher k s) ins = some (afterSetup k s1) := by
  have hcreate : ∀ s0 : State, s0.pc = Pc.creating k →
      ∃ ins s1, s1.sourceFiles = s0.sourceFiles ∧ s1.buildFiles = s0.buildFiles ∧
        exec cfg s0 ins = some (afterSetup k s1) := by
    intro s0 hpc
    obtain ⟨pc, sf, bf, sw, bw, al, cr, tr⟩ := s0
    simp only at hpc
    subst hpc
    obtain ⟨ins, s1, h1, h2, h3⟩ := exec_addLoop cfg k
      (State.files { State.setWatcher
          { pc := Pc.creating k, sourceFiles := sf, buildFiles := bf, sourceWatcher := sw,
            buildWatcher := bw, alive := al, created := cr,
            trace := tr ++ [Action.newWatcher k] } k (some ⟨cr, k⟩) with
          alive := al ++ [⟨cr, k⟩], created := cr + 1 } k)
      { State.setWatcher
          { pc := Pc.creating k, sourceFiles := sf, buildFiles := bf, sourceWatcher := sw,
            buildWatcher := bw, alive := al, created := cr,
            trace := tr ++ [Action.newWatcher k] } k (some ⟨cr, k⟩) with
          alive := al ++ [⟨cr, k⟩], created := cr + 1 }
    refine ⟨Input.created none :: ins, s1, ?_, ?_, ?_⟩
    · rw [h1]; cases k <;> rfl
    · rw [h2]; cases k <;> rfl
    · rw [exec_cons]
      simp only [step, Option.some_bind]
      exact h3
  unfold setupWatcher
  cases hw : s.watcher k with
  | none => exact hcreate { s with pc := Pc.creating k } rfl
  | some w =>
    simp only
    obtain ⟨ins, s1, h1, h2, h3⟩ := hcreate
      { s with trace := s.trace ++ [Action.close w], alive := s.alive.erase w,
               pc := Pc.creating k } rfl
    refine ⟨Input.closed none :: ins, s1, h1, h2, ?_⟩
    rw [exec_cons]
    have : step cfg { s with pc := Pc.closing k } (Input.closed none) = some
        { s with trace := s.trace ++ [Action.close w], alive := s.alive.erase w,
                 pc := Pc.creating k } := by
      have hw' : State.watcher { s with pc := Pc.closing k } k = some w := by
        rw [← hw]; cases k <;> rfl
      simp only [step, hw']
    rw [this, Option.some_bind, h3]

/-- C7. `FourTwenty` returns an error exactly when running the build command failed with an
error that is not an `*exec.ExitError`, and then returns that error unchanged. When the
build tool exits non-zero, `FourTwenty` returns `nil` and `Run` takes the same step as after
a successful build: it does not return, it enters `rewatch`, and when the watch calls
succeed it reaches `select` with the file sets unchanged. Any other error of the build
command makes `Run` return it unchanged, with no watcher closed, created or armed. -/
theorem FourTwenty_exit_error_recoverable (cfg : Config) (s : State) (h : s.pc = Pc.building) :
    (∀ runErr e, FourTwenty runErr = some e ↔
      runErr = some e ∧ ∀ status, e ≠ GoError.exitError status) ∧
    (∀ status, FourTwenty (some (GoError.exitError status)) = none ∧
      step cfg s (Input.ran (some (GoError.exitError status))) = step cfg s (Input.ran none) ∧
      step cfg s (Input.ran (some (GoError.exitError status)))
        = some (rewatch { s with trace := s.trace ++ [Action.build (buildArgv cfg)] }) ∧
      ∃ ins s', exec cfg s (Input.ran (some (GoError.exitError status)) :: ins) = some s' ∧
        s'.pc = Pc.waiting ∧ s'.sourceFiles = s.sourceFiles ∧ s'.buildFiles = s.buildFiles) ∧
    (∀ msg, step cfg s (Input.ran (some (GoError.other msg)))
      = some { s with trace := s.trace ++ [Action.build (buildArgv cfg)],
                      pc := Pc.returned (GoError.other msg) }) := by
  obtain ⟨pc, sf, bf, sw, bw, al, cr, tr⟩ := s
  simp only at h
  subst h
  refine ⟨?_, ?_, ?_⟩
  · intro runErr e
    rcases runErr with _ | ⟨st | msg⟩
    · simp [FourTwenty]
    · simp only [FourTwenty, Option.some.injEq]
      constructor
      · intro he; exact absurd he (by simp)
      · rintro ⟨he, hall⟩; exact absurd he.symm (hall st)
    · simp only [FourTwenty, Option.some.injEq, iff_self_and]
      intro he st; rw [← he]; simp
  · intro status
    refine ⟨rfl, rfl, rfl, ?_⟩
    obtain ⟨ins1, s1, h1, h2, h3⟩ := exec_setupWatcher cfg Kind.source
      { pc := Pc.building, sourceFiles := sf, buildFiles := bf, sourceWatcher := sw,
        buildWatcher := bw, alive := al, created := cr,
        trace := tr ++ [Action.build (buildArgv cfg)] }
    obtain ⟨ins2, s2, h4, h5, h6⟩ := exec_setupWatcher cfg Kind.build s1
    refine ⟨ins1 ++ ins2, { s2 with pc := Pc.waiting }, ?_, rfl, ?_, ?_⟩
    · rw [exec_cons]
      simp only [step, rewatch, FourTwenty, Option.some_bind]
      rw [exec_append, h3, Option.some_bind]
      exact h6
    · simp only [h4, h1]
    · simp only [h5, h2]
  · intro msg; rfl

theorem FourTwenty_exit_error_recoverable_witness :
    ∃ s, exec fooConfig State.init [fooResolved] = some s ∧ s.pc = Pc.building ∧
      step fooConfig s (Input.ran (some (GoError.exitError 1)))
        = step fooConfig s (Input.ran none) ∧
      (step fooConfig s (Input.ran (some (GoError.exitError 1)))).map (fun s' => s'.pc)
        = some (Pc.creating Kind.source) :=
  ⟨Option.get (exec fooConfig State.init [fooResolved]) (by decide), by simp, by decide,
    ((FourTwenty_exit_error_recoverable fooConfig _ (by decide)).2.1 1).2.1, by decide⟩

/-! ## The open watchers -/

theorem Consistent.count_le (s : State) (h : s.Consistent) (k : Kind) : s.aliveCount k ≤ 1 := by
  unfold State.aliveCount
  have hnd : (s.alive.filter (fun w => w.kind = k)).Nodup := h.nodup.filter _
  cases hw : s.watcher k with
  | none =>
    have : s.alive.filter (fun w => decide (w.kind = k)) = [] := by
      rw [List.filter_eq_nil_iff]
      intro w hmem hk
      have := h.held w hmem
      rw [of_decide_eq_true hk, hw] at this
      cases this
    rw [this]; simp
  | some w0 =>
    have hsub : ∀ w ∈ s.alive.filter (fun w => decide (w.kind = k)), w = w0 := by
      intro w hmem
      rw [List.mem_filter] at hmem
      have := h.held w hmem.1
      rw [of_decide_eq_true hmem.2, hw] at this
      exact (Option.some.inj this).symm
    match hl : s.alive.filter (fun w => decide (w.kind = k)) with
    | [] => rw [hl]; simp
    | [_] => rw [hl]; simp
    | a :: b :: t =>
      exfalso
      rw [hl] at hsub hnd
      have ha := hsub a (by simp)
      have hb := hsub b (by simp)
      rw [ha, hb] at hnd
      simp at hnd

theorem Consistent.count_eq_one (s : State) (h : s.Consistent) (k : Kind) (ha : s.armed k) :
    s.aliveCount k = 1 := by
  apply le_antisymm (Consistent.count_le s h k)
  obtain ⟨w, hw, hmem⟩ := ha
  unfold State.aliveCount
  apply List.length_pos_of_mem (a := w)
  rw [List.mem_filter]
  exact ⟨hmem, by simp [h.kind k w hw]⟩

theorem Consistent.count_eq_zero (s : State) (k : Kind) (ha : ¬ s.armed k) (h : s.Consistent) :
    s.aliveCount k = 0 := by
  unfold State.aliveCount
  rw [List.length_eq_zero, List.filter_eq_nil_iff]
  intro w hmem hk
  apply ha
  refine ⟨w, ?_, hmem⟩
  have := h.held w hmem
  rwa [of_decide_eq_true hk] at this

theorem Consistent.congr (s : State) (h : s.Consistent) (t : State)
    (h1 : t.sourceWatcher = s.sourceWatcher) (h2 : t.buildWatcher = s.buildWatcher)
    (h3 : t.alive = s.alive) (h4 : t.created = s.created) : t.Consistent := by
  have hw : ∀ k, t.watcher k = s.watcher k := by
    intro k; cases k
    · exact h1
    · exact h2
  refine ⟨by rw [h3]; exact h.nodup, ?_, ?_, ?_⟩
  · intro w hmem; rw [h3] at hmem; rw [h4]; exact h.fresh w hmem
  · intro w hmem; rw [h3] at hmem; rw [hw]; exact h.held w hmem
  · intro k w hk; rw [hw] at hk; exact h.kind k w hk

theorem armed_congr (s t : State) (h1 : t.sourceWatcher = s.sourceWatcher)
    (h2 : t.buildWatcher = s.buildWatcher) (h3 : t.alive = s.alive) (k : Kind) :
    t.armed k ↔ s.armed k := by
  have hw : t.watcher k = s.watcher k := by
    cases k
    · exact h1
    · exact h2
  unfold State.armed
  rw [hw, h3]

theorem setupWatcher_inv (k : Kind) (s : State) (hc : s.Consistent)
    (hs : k = Kind.build → s.armed Kind.source) :
    (setupWatcher k s).Consistent ∧ (setupWatcher k s).Armed := by
  unfold setupWatcher
  cases hw : s.watcher k with
  | some w =>
    refine ⟨Consistent.congr s hc _ rfl rfl rfl rfl, ?_⟩
    cases k
    · trivial
    · exact (armed_congr s _ rfl rfl rfl _).mpr (hs rfl)
  | none =>
    refine ⟨Consistent.congr s hc _ rfl rfl rfl rfl, ?_⟩
    have hna : ¬ s.armed k := by
      rintro ⟨w, hw', _⟩
      rw [hw] at hw'; cases hw'
    cases k
    · exact fun h => hna ((armed_congr s _ rfl rfl rfl _).mp h)
    · exact ⟨(armed_congr s _ rfl rfl rfl _).mpr (hs rfl),
        fun h => hna ((armed_congr s _ rfl rfl rfl _).mp h)⟩

theorem afterSetup_inv (k : Kind) (s : State) (hc : s.Consistent) (hk : s.armed k)
    (hs : k = Kind.build → s.armed Kind.source) :
    (afterSetup k s).Consistent ∧ (afterSetup k s).Armed := by
  cases k
  · exact setupWatcher_inv Kind.build s hc (fun _ => hk)
  · exact ⟨Consistent.congr s hc _ rfl rfl rfl rfl,
      (armed_congr s _ rfl rfl rfl _).mpr (hs rfl), (armed_congr s _ rfl rfl rfl _).mpr hk⟩

theorem addLoop_inv (k : Kind) (files : List GoString) (s : State) (hc : s.Consistent)
    (hk : s.armed k) (hs : k = Kind.build → s.armed Kind.source) :
    (addLoop k files s).Consistent ∧ (addLoop k files s).Armed := by
  cases files with
  | nil => exact afterSetup_inv k s hc hk hs
  | cons f rest =>
    refine ⟨Consistent.congr s hc _ rfl rfl rfl rfl, ?_⟩
    cases k
    · exact (armed_congr s _ rfl rfl rfl _).mpr hk
    · exact ⟨(armed_congr s _ rfl rfl rfl _).mpr (hs rfl), (armed_congr s _ rfl rfl rfl _).mpr hk⟩

theorem armed_source_of_pc (s : State) (ha : s.Armed) (k : Kind)
    (hpc : (s.pc = Pc.closing k ∨ s.pc = Pc.creating k ∨ ∃ f rest, s.pc = Pc.adding k f rest))
    (hk : k = Kind.build) : s.armed Kind.source := by
  subst hk
  unfold State.Armed at ha
  rcases hpc with h | h | ⟨f, rest, h⟩ <;> rw [h] at ha
  · exact ha
  · exact ha.1
  · exact ha.1

theorem step_inv (cfg : Config) (s s' : State) (i : Input) (hc : s.Consistent) (ha : s.Armed)
    (h : step cfg s i = some s') : s'.Consistent ∧ s'.Armed := by
  obtain ⟨pc, sf, bf, sw, bw, al, cr, tr⟩ := s
  cases pc <;> cases i <;> simp only [step, rewatch] at h <;> try (exact Option.noConfusion h)
  · -- resolving
    rename_i r
    rcases r with _ | ⟨a, b, _ | e⟩ <;> simp only [computeFileSet, Option.some.injEq] at h <;> subst h <;>
      exact ⟨Consistent.congr _ hc _ rfl rfl rfl rfl, trivial⟩
  · -- building
    rename_i r
    cases hf : FourTwenty r with
    | some e =>
      rw [hf] at h; simp only [Option.some.injEq] at h; subst h
      exact ⟨Consistent.congr _ hc _ rfl rfl rfl rfl, trivial⟩
    | none =>
      rw [hf] at h; simp only [Option.some.injEq] at h; subst h
      exact setupWatcher_inv _ _ (Consistent.congr _ hc _ rfl rfl rfl rfl) (by simp)
  · -- closing
    rename_i k err
    have hsrc := armed_source_of_pc _ ha k (Or.inl rfl)
    cases hw : State.watcher
        { pc := Pc.closing k, sourceFiles := sf, buildFiles := bf, sourceWatcher := sw,
          buildWatcher := bw, alive := al, created := cr, trace := tr } k with
    | none => rw [hw] at h; exact Option.noConfusion h
    | some w =>
      rw [hw] at h
      cases err with
      | some e =>
        simp only [Option.some.injEq] at h; subst h
        exact ⟨Consistent.congr _ hc _ rfl rfl rfl rfl, trivial⟩
      | none =>
        simp only [Option.some.injEq] at h; subst h
        have hkind : w.kind = k := hc.kind k w hw
        have hnodup : al.Nodup := hc.nodup
        refine ⟨⟨hnodup.erase w, ?_, ?_, ?_⟩, ?_⟩
        · intro x hx; exact hc.fresh x (List.mem_of_mem_erase hx)
        · intro x hx
          have := hc.held x (List.mem_of_mem_erase hx)
          cases hxk : x.kind <;> rw [hxk] at this <;> exact this
        · intro k' x hx
          exact hc.kind k' x (by cases k' <;> exact hx)
        · have hnk : ¬ State.armed
              { pc := Pc.creating k, sourceFiles := sf, buildFiles := bf, sourceWatcher := sw,
                buildWatcher := bw, alive := al.erase w, created := cr,
                trace := tr ++ [Action.close w] } k := by
            rintro ⟨x, hx, hmem⟩
            have hx' : x = w := by
              have : State.watcher
                { pc := Pc.closing k, sourceFiles := sf, buildFiles := bf, sourceWatcher := sw,
                  buildWatcher := bw, alive := al, created := cr, trace := tr } k = some x := by
                cases k <;> exact hx
              rw [hw] at this
              exact (Option.some.inj this).symm
            subst hx'
            exact (List.Nodup.not_mem_erase hnodup) hmem
          cases k
          · exact hnk
          · refine ⟨?_, hnk⟩
            obtain ⟨x, hx, hmem⟩ := hsrc rfl
            refine ⟨x, hx, ?_⟩
            have hxk : x.kind = Kind.source := hc.kind Kind.source x hx
            have hne : x ≠ w := by
              intro hxw; rw [hxw, hkind] at hxk; cases hxk
            exact (List.mem_erase_of_ne hne).mpr hmem
  · -- creating
    rename_i k err
    have hsrc := armed_source_of_pc _ ha k (Or.inr (Or.inl rfl))
    have hnk : ¬ State.armed
        { pc := Pc.creating k, sourceFiles := sf, buildFiles := bf, sourceWatcher := sw,
          buildWatcher := bw, alive := al, created := cr, trace := tr } k := by
      unfold State.Armed at ha
      cases k
      · exact ha
      · exact ha.2
    have hnot : ∀ x ∈ al, x.kind ≠ k := by
      intro x hx hxk
      apply hnk
      refine ⟨x, ?_, hx⟩
      have := hc.held x hx
      rw [hxk] at this
      exact this
    have hfresh : ∀ w : Watcher, w.id = cr → w ∉ al := by
      intro w hw hmem
      have := hc.fresh _ hmem
      simp only at this
      omega
    have hheld := hc.held
    have hkind := hc.kind
    have hnodup : al.Nodup := hc.nodup
    have hfr : ∀ w ∈ al, w.id < cr := hc.fresh
    cases err with
    | some e =>
      cases k <;> simp only [State.setWatcher, Option.some.injEq] at h <;> subst h <;>
        refine ⟨⟨hnodup, hfr, ?_, ?_⟩, trivial⟩
      · intro x hx
        have h1 := hheld x hx
        have h2 := hnot x hx
        cases hxk : x.kind <;> rw [hxk] at h1 h2
        · exact absurd rfl h2
        · exact h1
      · intro k' x hx
        cases k'
        · exact Option.noConfusion hx
        · exact hkind _ x hx
      · intro x hx
        have h1 := hheld x hx
        have h2 := hnot x hx
        cases hxk : x.kind <;> rw [hxk] at h1 h2
        · exact h1
        · exact absurd rfl h2
      · intro k' x hx
        cases k'
        · exact hkind _ x hx
        · exact Option.noConfusion hx
    | none =>
      cases k <;> simp only [State.setWatcher, State.files, Option.some.injEq] at h <;>
        subst h <;> refine addLoop_inv _ _ _ ⟨?_, ?_, ?_, ?_⟩ ⟨_, rfl, ?_⟩ ?_
      · show (al ++ [(⟨cr, Kind.source⟩ : Watcher)]).Nodup
        rw [List.nodup_append]
        refine ⟨hnodup, List.nodup_singleton _, ?_⟩
        intro x hx hx'
        rw [List.mem_singleton] at hx'
        subst hx'
        exact hfresh _ rfl hx
      · intro x hx
        have hx' : x ∈ al ++ [(⟨cr, Kind.source⟩ : Watcher)] := hx
        show x.id < cr + 1
        rw [List.mem_append, List.mem_singleton] at hx'
        rcases hx' with hx' | hx'
        · exact Nat.lt_succ_of_lt (hfr x hx')
        · subst hx'; exact Nat.lt_succ_self _
      · intro x hx
        have hx' : x ∈ al ++ [(⟨cr, Kind.source⟩ : Watcher)] := hx
        rw [List.mem_append, List.mem_singleton] at hx'
        rcases hx' with hx' | hx'
        · have h1 := hheld x hx'
          have h2 := hnot x hx'
          cases hxk : x.kind <;> rw [hxk] at h1 h2
          · exact absurd rfl h2
          · exact h1
        · subst hx'; rfl
      · intro k' x hx
        cases k'
        · have := Option.some.inj hx; subst this; rfl
        · exact hkind _ x hx
      · show (⟨cr, Kind.source⟩ : Watcher) ∈ al ++ [(⟨cr, Kind.source⟩ : Watcher)]
        simp
      · intro hkb; cases hkb
      · show (al ++ [(⟨cr, Kind.build⟩ : Watcher)]).Nodup
        rw [List.nodup_append]
        refine ⟨hnodup, List.nodup_singleton _, ?_⟩
        intro x hx hx'
        rw [List.mem_singleton] at hx'
        subst hx'
        exact hfresh _ rfl hx
      · intro x hx
        have hx' : x ∈ al ++ [(⟨cr, Kind.build⟩ : Watcher)] := hx
        show x.id < cr + 1
        rw [List.mem_append, List.mem_singleton] at hx'
        rcases hx' with hx' | hx'
        · exact Nat.lt_succ_of_lt (hfr x hx')
        · subst hx'; exact Nat.lt_succ_self _
      · intro x hx
        have hx' : x ∈ al ++ [(⟨cr, Kind.build⟩ : Watcher)] := hx
        rw [List.mem_append, List.mem_singleton] at hx'
        rcases hx' with hx' | hx'
        · have h1 := hheld x hx'
          have h2 := hnot x hx'
          cases hxk : x.kind <;> rw [hxk] at h1 h2
          · exact h1
          · exact absurd rfl h2
        · subst hx'; rfl
      · intro k' x hx
        cases k'
        · exact hkind _ x hx
        · have := Option.some.inj hx; subst this; rfl
      · show (⟨cr, Kind.build⟩ : Watcher) ∈ al ++ [(⟨cr, Kind.build⟩ : Watcher)]
        simp
      · intro _
        obtain ⟨x, hx, hmem⟩ := hsrc rfl
        exact ⟨x, hx, List.mem_append_left _ hmem⟩
  · -- adding
    rename_i k f rest err
    cases err with
    | some e =>
      simp only [Option.some.injEq] at h; subst h
      exact ⟨Consistent.congr _ hc _ rfl rfl rfl rfl, trivial⟩
    | none =>
      simp only [Option.some.injEq] at h; subst h
      have hsrc := armed_source_of_pc _ ha k (Or.inr (Or.inr ⟨f, rest, rfl⟩))
      have hk : State.armed
          { pc := Pc.adding k f rest, sourceFiles := sf, buildFiles := bf, sourceWatcher := sw,
            buildWatcher := bw, alive := al, created := cr, trace := tr } k := by
        unfold State.Armed at ha
        cases k
        · exact ha
        · exact ha.2
      refine addLoop_inv _ _ _ (Consistent.congr _ hc _ rfl rfl rfl rfl)
        ((armed_congr _ _ rfl rfl rfl _).mpr hk) ?_
      intro hkb
      exact (armed_congr _ _ rfl rfl rfl _).mpr (hsrc hkb)
  · simp only [Option.some.injEq] at h; subst h
    exact ⟨Consistent.congr _ hc _ rfl rfl rfl rfl, trivial⟩
  · simp only [Option.some.injEq] at h; subst h
    exact ⟨Consistent.congr _ hc _ rfl rfl rfl rfl, trivial⟩

theorem round_setup_source (s : State)
    (h : s.Pristine ∨ (s.armed Kind.source ∧ s.armed Kind.build)) :
    (setupWatcher Kind.source s).Round := by
  unfold setupWatcher
  cases hw : s.watcher Kind.source with
  | some w =>
    rcases h with hp | ⟨h1, h2⟩
    · have : s.watcher Kind.source = none := hp.1
      rw [this] at hw; cases hw
    · exact ⟨(armed_congr s _ rfl rfl rfl _).mpr h1, (armed_congr s _ rfl rfl rfl _).mpr h2⟩
  | none =>
    rcases h with hp | ⟨_, h2⟩
    · exact Or.inl hp
    · exact Or.inr ((armed_congr s _ rfl rfl rfl _).mpr h2)

theorem round_setup_build (s : State) (h : s.buildWatcher = none ∨ s.armed Kind.build) :
    (setupWatcher Kind.build s).Round := by
  unfold setupWatcher
  cases hw : s.watcher Kind.build with
  | some w =>
    rcases h with hn | h2
    · have : s.watcher Kind.build = none := hn
      rw [this] at hw; cases hw
    · exact (armed_congr s _ rfl rfl rfl _).mpr h2
  | none => trivial

theorem round_addLoop (k : Kind) (files : List GoString) (s : State)
    (h : k = Kind.source → s.buildWatcher = none ∨ s.armed Kind.build) :
    (addLoop k files s).Round := by
  cases k with
  | source =>
    cases files with
    | nil => exact round_setup_build s (h rfl)
    | cons f rest =>
      rcases h rfl with hn | h2
      · exact Or.inl hn
      · exact Or.inr ((armed_congr s _ rfl rfl rfl _).mpr h2)
  | build =>
    cases files with
    | nil => trivial
    | cons f rest => trivial

theorem step_round (cfg : Config) (s s' : State) (i : Input) (hc : s.Consistent) (ha : s.Armed)
    (hr : s.Round) (h : step cfg s i = some s') : s'.Round := by
  obtain ⟨pc, sf, bf, sw, bw, al, cr, tr⟩ := s
  cases pc <;> cases i <;> simp only [step, rewatch] at h <;> try (exact Option.noConfusion h)
  · -- resolving
    rename_i r
    have hr' : State.Pristine
          { pc := Pc.resolving, sourceFiles := sf, buildFiles := bf, sourceWatcher := sw,
            buildWatcher := bw, alive := al, created := cr, trace := tr } ∨
        (State.armed
          { pc := Pc.resolving, sourceFiles := sf, buildFiles := bf, sourceWatcher := sw,
            buildWatcher := bw, alive := al, created := cr, trace := tr } Kind.source ∧
         State.armed
          { pc := Pc.resolving, sourceFiles := sf, buildFiles := bf, sourceWatcher := sw,
            buildWatcher := bw, alive := al, created := cr, trace := tr } Kind.build) := hr
    rcases r with _ | ⟨a, b, _ | e⟩ <;> simp only [computeFileSet, Option.some.injEq] at h <;>
      subst h
    · trivial
    · rcases hr' with hp | ⟨h1, h2⟩
      · exact Or.inl hp
      · exact Or.inr ⟨(armed_congr _ _ rfl rfl rfl _).mpr h1, (armed_congr _ _ rfl rfl rfl _).mpr h2⟩
    · trivial
  · -- building
    rename_i r
    have hr' : State.Pristine
          { pc := Pc.building, sourceFiles := sf, buildFiles := bf, sourceWatcher := sw,
            buildWatcher := bw, alive := al, created := cr, trace := tr } ∨
        (State.armed
          { pc := Pc.building, sourceFiles := sf, buildFiles := bf, sourceWatcher := sw,
            buildWatcher := bw, alive := al, created := cr, trace := tr } Kind.source ∧
         State.armed
          { pc := Pc.building, sourceFiles := sf, buildFiles := bf, sourceWatcher := sw,
            buildWatcher := bw, alive := al, created := cr, trace := tr } Kind.build) := hr
    cases hf : FourTwenty r with
    | some e => rw [hf] at h; simp only [Option.some.injEq] at h; subst h; trivial
    | none =>
      rw [hf] at h; simp only [Option.some.injEq] at h; subst h
      apply round_setup_source
      rcases hr' with hp | ⟨h1, h2⟩
      · exact Or.inl hp
      · exact Or.inr ⟨(armed_congr _ _ rfl rfl rfl _).mpr h1, (armed_congr _ _ rfl rfl rfl _).mpr h2⟩
  · -- closing
    rename_i k err
    cases hw : State.watcher
        { pc := Pc.closing k, sourceFiles := sf, buildFiles := bf, sourceWatcher := sw,
          buildWatcher := bw, alive := al, created := cr, trace := tr } k with
    | none => rw [hw] at h; exact Option.noConfusion h
    | some w =>
      rw [hw] at h
      cases err with
      | some e => simp only [Option.some.injEq] at h; subst h; trivial
      | none =>
        simp only [Option.some.injEq] at h; subst h
        have hkind : w.kind = k := hc.kind k w hw
        cases k with
        | build => trivial
        | source =>
          obtain ⟨x, hx, hmem⟩ : State.armed
              { pc := Pc.closing Kind.source, sourceFiles := sf, buildFiles := bf,
                sourceWatcher := sw, buildWatcher := bw, alive := al, created := cr,
                trace := tr } Kind.build := (show _ ∧ _ from hr).2
          refine Or.inr ⟨x, hx, ?_⟩
          have hxk : x.kind = Kind.build := hc.kind Kind.build x hx
          have hne : x ≠ w := by
            intro hxw; rw [hxw, hkind] at hxk; cases hxk
          exact (List.mem_erase_of_ne hne).mpr hmem
  · -- creating
    rename_i k err
    cases err with
    | some e =>
      cases k <;> simp only [State.setWatcher, Option.some.injEq] at h <;> subst h <;> trivial
    | none =>
      cases k with
      | build =>
        simp only [State.setWatcher, State.files, Option.some.injEq] at h
        subst h
        exact round_addLoop Kind.build _ _ (fun hk => by cases hk)
      | source =>
        simp only [State.setWatcher, State.files, Option.some.injEq] at h
        subst h
        refine round_addLoop Kind.source _ _ (fun _ => ?_)
        have hr' : State.Pristine
              { pc := Pc.creating Kind.source, sourceFiles := sf, buildFiles := bf,
                sourceWatcher := sw, buildWatcher := bw, alive := al, created := cr,
                trace := tr } ∨
            State.armed
              { pc := Pc.creating Kind.source, sourceFiles := sf, buildFiles := bf,
                sourceWatcher := sw, buildWatcher := bw, alive := al, created := cr,
                trace := tr } Kind.build := hr
        rcases hr' with hp | ⟨x, hx, hmem⟩
        · exact Or.inl hp.2.1
        · exact Or.inr ⟨x, hx, List.mem_append_left _ hmem⟩
  · -- adding
    rename_i k f rest err
    cases err with
    | some e => simp only [Option.some.injEq] at h; subst h; trivial
    | none =>
      simp only [Option.some.injEq] at h; subst h
      cases k with
      | build => exact round_addLoop Kind.build _ _ (fun hk => by cases hk)
      | source =>
        refine round_addLoop Kind.source _ _ (fun _ => ?_)
        have hr' : bw = none ∨ State.armed
              { pc := Pc.adding Kind.source f rest, sourceFiles := sf, buildFiles := bf,
                sourceWatcher := sw, buildWatcher := bw, alive := al, created := cr,
                trace := tr } Kind.build := hr
        rcases hr' with hn | h2
        · exact Or.inl hn
        · exact Or.inr ((armed_congr _ _ rfl rfl rfl _).mpr h2)
  · -- waiting, source event
    simp only [Option.some.injEq] at h; subst h
    have ha' : State.armed
          { pc := Pc.waiting, sourceFiles := sf, buildFiles := bf, sourceWatcher := sw,
            buildWatcher := bw, alive := al, created := cr, trace := tr } Kind.source ∧
        State.armed
          { pc := Pc.waiting, sourceFiles := sf, buildFiles := bf, sourceWatcher := sw,
            buildWatcher := bw, alive := al, created := cr, trace := tr } Kind.build := ha
    exact Or.inr ⟨(armed_congr _ _ rfl rfl rfl _).mpr ha'.1, (armed_congr _ _ rfl rfl rfl _).mpr ha'.2⟩
  · -- waiting, build event
    simp only [Option.some.injEq] at h; subst h
    have ha' : State.armed
          { pc := Pc.waiting, sourceFiles := sf, buildFiles := bf, sourceWatcher := sw,
            buildWatcher := bw, alive := al, created := cr, trace := tr } Kind.source ∧
        State.armed
          { pc := Pc.waiting, sourceFiles := sf, buildFiles := bf, sourceWatcher := sw,
            buildWatcher := bw, alive := al, created := cr, trace := tr } Kind.build := ha
    exact Or.inr ⟨(armed_congr _ _ rfl rfl rfl _).mpr ha'.1, (armed_congr _ _ rfl rfl rfl _).mpr ha'.2⟩

theorem exec_round (cfg : Config) (ins : List Input) (s : State)
    (h : exec cfg State.init ins = some s) : s.Consistent ∧ s.Armed ∧ s.Round := by
  refine exec_invariant cfg (fun s => s.Consistent ∧ s.Armed ∧ s.Round) ?_ State.init ins s ?_ h
  · intro s i s' ⟨hc, ha, hr⟩ hstep
    obtain ⟨hc', ha'⟩ := step_inv cfg s s' i hc ha hstep
    exact ⟨hc', ha', step_round cfg s s' i hc ha hr hstep⟩
  · refine ⟨⟨List.nodup_nil, ?_, ?_, ?_⟩, trivial, Or.inl ⟨rfl, rfl, rfl⟩⟩
    · intro w hw; cases hw
    · intro w hw; cases hw
    · intro k w hw; cases k <;> exact Option.noConfusion hw

/-- At a control point of the loops of `Run`, the watcher a field points to is open, except
between its `Close` and the `NewWatcher` that replaces it. -/
theorem armed_of_watcher (s : State) (ha : s.Armed) (hr : s.Round) (k : Kind)
    (hin : s.pc.inInnerLoop = true ∨ s.pc = Pc.resolving) (hpc : s.pc ≠ Pc.creating k)
    (hw : s.watcher k ≠ none) : s.armed k := by
  obtain ⟨pc, sf, bf, sw, bw, al, cr, tr⟩ := s
  cases pc with
  | resolving =>
    rcases (show State.Pristine _ ∨ (State.armed _ Kind.source ∧ State.armed _ Kind.build)
      from hr) with hp | ⟨h1, h2⟩
    · cases k
      · exact absurd hp.1 hw
      · exact absurd hp.2.1 hw
    · cases k
      · exact h1
      · exact h2
  | building =>
    rcases (show State.Pristine _ ∨ (State.armed _ Kind.source ∧ State.armed _ Kind.build)
      from hr) with hp | ⟨h1, h2⟩
    · cases k
      · exact absurd hp.1 hw
      · exact absurd hp.2.1 hw
    · cases k
      · exact h1
      · exact h2
  | closing k' =>
    cases k' with
    | source =>
      have h := (show State.armed _ Kind.source ∧ State.armed _ Kind.build from hr)
      cases k
      · exact h.1
      · exact h.2
    | build =>
      have h1 := (show State.armed _ Kind.source from ha)
      have h2 := (show State.armed _ Kind.build from hr)
      cases k
      · exact h1
      · exact h2
  | creating k' =>
    cases k' with
    | source =>
      cases k with
      | source => exact absurd rfl hpc
      | build =>
        rcases (show State.Pristine _ ∨ State.armed _ Kind.build from hr) with hp | h2
        · exact absurd hp.2.1 hw
        · exact h2
    | build =>
      cases k with
      | source => exact (show State.armed _ Kind.source ∧ ¬ State.armed _ Kind.build from ha).1
      | build => exact absurd rfl hpc
  | adding k' f rest =>
    cases k' with
    | source =>
      cases k with
      | source => exact (show State.armed _ Kind.source from ha)
      | build =>
        rcases (show bw = none ∨ State.armed _ Kind.build from hr) with hn | h2
        · exact absurd hn hw
        · exact h2
    | build =>
      have h := (show State.armed _ Kind.source ∧ State.armed _ Kind.build from ha)
      cases k
      · exact h.1
      · exact h.2
  | waiting =>
    have h := (show State.armed _ Kind.source ∧ State.armed _ Kind.build from ha)
    cases k
    · exact h.1
    · exact h.2
  | returned e =>
    rcases hin with h | h
    · exact Bool.noConfusion h
    · exact Pc.noConfusion h
  | panicked =>
    rcases hin with h | h
    · exact Bool.noConfusion h
    · exact Pc.noConfusion h

theorem count_zero_of_created (s : State) (hc : s.Consistent) (h0 : s.created = 0) (k : Kind) :
    s.aliveCount k = 0 := by
  apply Consistent.count_eq_zero s k _ hc
  rintro ⟨w, _, hmem⟩
  have := hc.fresh w hmem
  omega

/-- C8, as the code has it. In every execution of `Run`, at most one source watch and at
most one build watch are open at any control point. At every control point of the inner loop
(and while the resolver is called) exactly one watch of each kind is open, with two
exceptions, in which no watch of that kind is open: the watcher field of that kind is still
`nil` (the first iteration, before `rewatch` has created it), or `setupWatcher` stands
between the `Close` of the old watch of that field and the `NewWatcher` that replaces it. So
exactly one of each is open in `select`, whenever the build command runs or the resolver is
called after a watcher has been created, and whenever an old watch is about to be closed; no
watch is open while the build command runs for the first time; the old watch of a field is
closed before the new watch of that field is created, and the new source watch is already
open when the old build watch is closed. -/
theorem Run_watch_invariant (cfg : Config) (ins : List Input) (s : State)
    (h : exec cfg State.init ins = some s) :
    s.aliveCount Kind.source ≤ 1 ∧ s.aliveCount Kind.build ≤ 1 ∧
    (∀ k, s.pc.inInnerLoop = true ∨ s.pc = Pc.resolving →
      (s.pc = Pc.creating k ∨ s.watcher k = none → s.aliveCount k = 0) ∧
      (s.pc ≠ Pc.creating k → s.watcher k ≠ none → s.aliveCount k = 1)) ∧
    (s.pc = Pc.building ∨ s.pc = Pc.resolving →
      (s.created ≠ 0 → s.aliveCount Kind.source = 1 ∧ s.aliveCount Kind.build = 1) ∧
      (s.created = 0 → s.aliveCount Kind.source = 0 ∧ s.aliveCount Kind.build = 0)) ∧
    (s.pc = Pc.waiting → s.aliveCount Kind.source = 1 ∧ s.aliveCount Kind.build = 1) ∧
    (∀ k, s.pc = Pc.closing k → s.aliveCount Kind.source = 1 ∧ s.aliveCount Kind.build = 1) ∧
    (∀ k, s.pc = Pc.creating k → s.aliveCount k = 0) ∧
    (∀ k f rest, s.pc = Pc.adding k f rest → s.aliveCount k = 1) ∧
    (s.pc = Pc.closing Kind.build ∨ s.pc = Pc.creating Kind.build →
      s.aliveCount Kind.source = 1) ∧
    (∀ f rest, s.pc = Pc.adding Kind.build f rest →
      s.aliveCount Kind.source = 1 ∧ s.aliveCount Kind.build = 1) := by
  obtain ⟨hc, ha, hr⟩ := exec_round cfg ins s h
  have hcreating : ∀ k, s.pc = Pc.creating k → s.aliveCount k = 0 := by
    intro k hpc
    have ha' := ha
    unfold State.Armed at ha'
    rw [hpc] at ha'
    cases k
    · exact Consistent.count_eq_zero s _ ha' hc
    · exact Consistent.count_eq_zero s _ ha'.2 hc
  refine ⟨Consistent.count_le s hc _, Consistent.count_le s hc _, ?_, ?_, ?_, ?_, hcreating,
    ?_, ?_, ?_⟩
  · intro k hin
    constructor
    · rintro (hpc | hw)
      · exact hcreating k hpc
      · apply Consistent.count_eq_zero s k _ hc
        rintro ⟨w, hw', _⟩
        rw [hw] at hw'; cases hw'
    · intro hpc hw
      exact Consistent.count_eq_one s hc k (armed_of_watcher s ha hr k hin hpc hw)
  · intro hpc
    constructor
    · intro hcr
      have hr' := hr
      unfold State.Round at hr'
      have hboth : s.armed Kind.source ∧ s.armed Kind.build := by
        rcases hpc with hpc | hpc <;> rw [hpc] at hr' <;> rcases hr' with hp | hb
        · exact absurd hp.2.2 hcr
        · exact hb
        · exact absurd hp.2.2 hcr
        · exact hb
      exact ⟨Consistent.count_eq_one s hc _ hboth.1, Consistent.count_eq_one s hc _ hboth.2⟩
    · intro h0
      exact ⟨count_zero_of_created s hc h0 _, count_zero_of_created s hc h0 _⟩
  · intro hpc
    have ha' := ha
    unfold State.Armed at ha'
    rw [hpc] at ha'
    exact ⟨Consistent.count_eq_one s hc _ ha'.1, Consistent.count_eq_one s hc _ ha'.2⟩
  · intro k hpc
    have ha' := ha
    have hr' := hr
    unfold State.Armed at ha'
    unfold State.Round at hr'
    rw [hpc] at ha' hr'
    cases k
    · exact ⟨Consistent.count_eq_one s hc _ hr'.1, Consistent.count_eq_one s hc _ hr'.2⟩
    · exact ⟨Consistent.count_eq_one s hc _ ha', Consistent.count_eq_one s hc _ hr'⟩
  · intro k f rest hpc
    have ha' := ha
    unfold State.Armed at ha'
    rw [hpc] at ha'
    cases k
    · exact Consistent.count_eq_one s hc _ ha'
    · exact Consistent.count_eq_one s hc _ ha'.2
  · intro hpc
    have ha' := ha
    unfold State.Armed at ha'
    rcases hpc with hpc | hpc <;> rw [hpc] at ha'
    · exact Consistent.count_eq_one s hc _ ha'
    · exact Consistent.count_eq_one s hc _ ha'.1
  · intro f rest hpc
    have ha' := ha
    unfold State.Armed at ha'
    rw [hpc] at ha'
    exact ⟨Consistent.count_eq_one s hc _ ha'.1, Consistent.count_eq_one s hc _ ha'.2⟩

theorem Run_watch_invariant_witness :
    ∃ s, exec fooConfig State.init (fooFirstCycle ++ [Input.sourceEvent]) = some s ∧
      s.pc = Pc.building ∧ s.created = 2 ∧
      s.alive = [⟨0, Kind.source⟩, ⟨1, Kind.build⟩] ∧
      s.aliveCount Kind.source = 1 ∧ s.aliveCount Kind.build = 1 :=
  ⟨Option.get (exec fooConfig State.init (fooFirstCycle ++ [Input.sourceEvent])) (by decide),
    by simp, by decide, by decide, by decide,
    ((Run_watch_invariant fooConfig (fooFirstCycle ++ [Input.sourceEvent]) _
      (by simp)).2.2.2.1 (Or.inl (by decide))).1 (by decide)⟩

/-- C8 as stated fails. After the first `Resolve`, `Run` is in its inner loop, about to run
the build command, and no watch is open. In the second `rewatch`, after the old source watch
(number 0) has been closed, no source watch is open until `NewWatcher` is called; and the
new source watch (number 2) is open while the old build watch (number 1) has not been closed
yet: `Run` is about to call its `Close`. -/
theorem Run_watch_count_counterexample :
    (exec fooConfig State.init [fooResolved]).map
        (fun s => (s.pc, s.pc.inInnerLoop, s.aliveCount Kind.source, s.aliveCount Kind.build))
      = some (Pc.building, true, 0, 0) ∧
    (exec fooConfig State.init
      (fooFirstCycle ++ [Input.sourceEvent, Input.ran none, Input.closed none])).map
        (fun s => (s.pc, s.pc.inInnerLoop, s.aliveCount Kind.source, s.aliveCount Kind.build))
      = some (Pc.creating Kind.source, true, 0, 1) ∧
    (exec fooConfig State.init
      (fooFirstCycle ++ [Input.sourceEvent, Input.ran none, Input.closed none,
        Input.created none, Input.added none])).map
        (fun s => (s.pc, s.pc.inInnerLoop, s.alive, s.trace.drop 9))
      = some (Pc.closing Kind.build, true, [⟨1, Kind.build⟩, ⟨2, Kind.source⟩],
          [Action.close ⟨0, Kind.source⟩, Action.newWatcher Kind.source,
            Action.addWatch (some ⟨2, Kind.source⟩) (lit "/ws/foo/bar.src")]) := by
  refine ⟨by decide, by decide, by decide⟩

/-! ## `Resolve` -/

theorem Resolve_fail1 (c : CommandDepResolver) (tool : Tool) (target : GoString) (e : GoError)
    (h1 : (tool (bazelCmd c [lit "info", lit "output_base"])).2 = some e) :
    Resolve c tool target
      = ⟨[bazelCmd c [lit "info", lit "output_base"]], some ([], [], some e)⟩ := by
  simp [Resolve, info, Output, h1]

theorem Resolve_fail2 (c : CommandDepResolver) (tool : Tool) (target : GoString) (e : GoError)
    (h1 : (tool (bazelCmd c [lit "info", lit "output_base"])).2 = none)
    (h2 : (tool (bazelCmd c [lit "info", lit "workspace"])).2 = some e) :
    Resolve c tool target
      = ⟨[bazelCmd c [lit "info", lit "output_base"], bazelCmd c [lit "info", lit "workspace"]],
          some ([], [], some e)⟩ := by
  simp [Resolve, info, Output, h1, h2]

theorem Resolve_fail3 (c : CommandDepResolver) (tool : Tool) (target : GoString) (e : GoError)
    (h1 : (tool (bazelCmd c [lit "info", lit "output_base"])).2 = none)
    (h2 : (tool (bazelCmd c [lit "info", lit "workspace"])).2 = none)
    (h3 : (tool (bazelCmd c [lit "query", queryTmpl target])).2 = some e) :
    Resolve c tool target
      = ⟨[bazelCmd c [lit "info", lit "output_base"], bazelCmd c [lit "info", lit "workspace"],
          bazelCmd c [lit "query", queryTmpl target]], some ([], [], some e)⟩ := by
  simp [Resolve, info, resolveQuery, Output, h1, h2, h3]

theorem Resolve_panic3 (c : CommandDepResolver) (tool : Tool) (target : GoString)
    (h1 : (tool (bazelCmd c [lit "info", lit "output_base"])).2 = none)
    (h2 : (tool (bazelCmd c [lit "info", lit "workspace"])).2 = none)
    (h3 : (tool (bazelCmd c [lit "query", queryTmpl target])).2 = none)
    (hm : mapLabelsToFiles (Split (tool (bazelCmd c [lit "query", queryTmpl target])).1 10)
      (TrimSpace (tool (bazelCmd c [lit "info", lit "output_base"])).1)
      (TrimSpace (tool (bazelCmd c [lit "info", lit "workspace"])).1) = none) :
    Resolve c tool target
      = ⟨[bazelCmd c [lit "info", lit "output_base"], bazelCmd c [lit "info", lit "workspace"],
          bazelCmd c [lit "query", queryTmpl target]], none⟩ := by
  simp [Resolve, info, resolveQuery, Output, h1, h2, h3, hm]

theorem Resolve_fail4 (c : CommandDepResolver) (tool : Tool) (target : GoString) (e : GoError)
    (src : List GoString)
    (h1 : (tool (bazelCmd c [lit "info", lit "output_base"])).2 = none)
    (h2 : (tool (bazelCmd c [lit "info", lit "workspace"])).2 = none)
    (h3 : (tool (bazelCmd c [lit "query", queryTmpl target])).2 = none)
    (hm : mapLabelsToFiles (Split (tool (bazelCmd c [lit "query", queryTmpl target])).1 10)
      (TrimSpace (tool (bazelCmd c [lit "info", lit "output_base"])).1)
      (TrimSpace (tool (bazelCmd c [lit "info", lit "workspace"])).1) = some src)
    (h4 : (tool (bazelCmd c [lit "query", buildQueryTmpl target])).2 = some e) :
    Resolve c tool target
      = ⟨[bazelCmd c [lit "info", lit "output_base"], bazelCmd c [lit "info", lit "workspace"],
          bazelCmd c [lit "query", queryTmpl target],
          bazelCmd c [lit "query", buildQueryTmpl target]], some ([], [], some e)⟩ := by
  simp [Resolve, info, resolveQuery, Output, h1, h2, h3, hm, h4]

theorem Resolve_panic4 (c : CommandDepResolver) (tool : Tool) (target : GoString)
    (src : List GoString)
    (h1 : (tool (bazelCmd c [lit "info", lit "output_base"])).2 = none)
    (h2 : (tool (bazelCmd c [lit "info", lit "workspace"])).2 = none)
    (h3 : (tool (bazelCmd c [lit "query", queryTmpl target])).2 = none)
    (hm : mapLabelsToFiles (Split (tool (bazelCmd c [lit "query", queryTmpl target])).1 10)
      (TrimSpace (tool (bazelCmd c [lit "info", lit "output_base"])).1)
      (TrimSpace (tool (bazelCmd c [lit "info", lit "workspace"])).1) = some src)
    (h4 : (tool (bazelCmd c [lit "query", buildQueryTmpl target])).2 = none)
    (hb : mapLabelsToFiles (Split (tool (bazelCmd c [lit "query", buildQueryTmpl target])).1 10)
      (TrimSpace (tool (bazelCmd c [lit "info", lit "output_base"])).1)
      (TrimSpace (tool (bazelCmd c [lit "info", lit "workspace"])).1) = none) :
    Resolve c tool target
      = ⟨[bazelCmd c [lit "info", lit "output_base"], bazelCmd c [lit "info", lit "workspace"],
          bazelCmd c [lit "query", queryTmpl target],
          bazelCmd c [lit "query", buildQueryTmpl target]], none⟩ := by
  simp [Resolve, info, resolveQuery, Output, h1, h2, h3, hm, h4, hb]

theorem Resolve_ok (c : CommandDepResolver) (tool : Tool) (target : GoString)
    (src mapped : List GoString)
    (h1 : (tool (bazelCmd c [lit "info", lit "output_base"])).2 = none)
    (h2 : (tool (bazelCmd c [lit "info", lit "workspace"])).2 = none)
    (h3 : (tool (bazelCmd c [lit "query", queryTmpl target])).2 = none)
    (hm : mapLabelsToFiles (Split (tool (bazelCmd c [lit "query", queryTmpl target])).1 10)
      (TrimSpace (tool (bazelCmd c [lit "info", lit "output_base"])).1)
      (TrimSpace (tool (bazelCmd c [lit "info", lit "workspace"])).1) = some src)
    (h4 : (tool (bazelCmd c [lit "query", buildQueryTmpl target])).2 = none)
    (hb : mapLabelsToFiles (Split (tool (bazelCmd c [lit "query", buildQueryTmpl target])).1 10)
      (TrimSpace (tool (bazelCmd c [lit "info", lit "output_base"])).1)
      (TrimSpace (tool (bazelCmd c [lit "info", lit "workspace"])).1) = some mapped) :
    Resolve c tool target
      = ⟨[bazelCmd c [lit "info", lit "output_base"], bazelCmd c [lit "info", lit "workspace"],
          bazelCmd c [lit "query", queryTmpl target],
          bazelCmd c [lit "query", buildQueryTmpl target]],
          some (src, mapped ++ [Join [TrimSpace (tool (bazelCmd c [lit "info", lit "workspace"])).1,
            workspaceFileName]], none)⟩ := by
  simp [Resolve, info, resolveQuery, Output, h1, h2, h3, hm, h4, hb]

/-- The method `Resolve` returns a `nil` error exactly when the four calls succeed and both outputs are
mapped without a panic; the file sets are then the two mapped outputs, the second followed
by the `WORKSPACE` path. -/
theorem Resolve_success_iff (c : CommandDepResolver) (tool : Tool) (target : GoString)
    (src bld : List GoString) :
    (Resolve c tool target).result = some (src, bld, none) ↔
      (tool (bazelCmd c [lit "info", lit "output_base"])).2 = none ∧
      (tool (bazelCmd c [lit "info", lit "workspace"])).2 = none ∧
      (tool (bazelCmd c [lit "query", queryTmpl target])).2 = none ∧
      (tool (bazelCmd c [lit "query", buildQueryTmpl target])).2 = none ∧
      mapLabelsToFiles (Split (tool (bazelCmd c [lit "query", queryTmpl target])).1 10)
        (TrimSpace (tool (bazelCmd c [lit "info", lit "output_base"])).1)
        (TrimSpace (tool (bazelCmd c [lit "info", lit "workspace"])).1) = some src ∧
      ∃ mapped,
        mapLabelsToFiles (Split (tool (bazelCmd c [lit "query", buildQueryTmpl target])).1 10)
          (TrimSpace (tool (bazelCmd c [lit "info", lit "output_base"])).1)
          (TrimSpace (tool (bazelCmd c [lit "info", lit "workspace"])).1) = some mapped ∧
        bld = mapped ++ [Join [TrimSpace (tool (bazelCmd c [lit "info", lit "workspace"])).1,
          workspaceFileName]] := by
  cases h1 : (tool (bazelCmd c [lit "info", lit "output_base"])).2 with
  | some e => rw [Resolve_fail1 c tool target e h1]; simp
  | none =>
    cases h2 : (tool (bazelCmd c [lit "info", lit "workspace"])).2 with
    | some e => rw [Resolve_fail2 c tool target e h1 h2]; simp
    | none =>
      cases h3 : (tool (bazelCmd c [lit "query", queryTmpl target])).2 with
      | some e => rw [Resolve_fail3 c tool target e h1 h2 h3]; simp
      | none =>
        cases hm : mapLabelsToFiles
            (Split (tool (bazelCmd c [lit "query", queryTmpl target])).1 10)
            (TrimSpace (tool (bazelCmd c [lit "info", lit "output_base"])).1)
            (TrimSpace (tool (bazelCmd c [lit "info", lit "workspace"])).1) with
        | none => rw [Resolve_panic3 c tool target h1 h2 h3 hm]; simp
        | some src' =>
          cases h4 : (tool (bazelCmd c [lit "query", buildQueryTmpl target])).2 with
          | some e => rw [Resolve_fail4 c tool target e src' h1 h2 h3 hm h4]; simp
          | none =>
            cases hb : mapLabelsToFiles
                (Split (tool (bazelCmd c [lit "query", buildQueryTmpl target])).1 10)
                (TrimSpace (tool (bazelCmd c [lit "info", lit "output_base"])).1)
                (TrimSpace (tool (bazelCmd c [lit "info", lit "workspace"])).1) with
            | none => rw [Resolve_panic4 c tool target src' h1 h2 h3 hm h4 hb]; simp
            | some mapped =>
              rw [Resolve_ok c tool target src' mapped h1 h2 h3 hm h4 hb]
              simp only [Option.some.injEq, Prod.mk.injEq, and_true, true_and]
              constructor
              · rintro ⟨rfl, rfl⟩; exact ⟨rfl, mapped, rfl, rfl⟩
              · rintro ⟨rfl, m, hm', rfl⟩; subst hm'; exact ⟨rfl, rfl⟩

/-! ## `strings.Split` and `path.Clean` -/

theorem Split_ne_nil (s : GoString) (sep : UInt8) : Split s sep ≠ [] := by
  cases s with
  | nil => simp [Split]
  | cons c t =>
    rw [Split]
    split
    · simp
    · split <;> simp

theorem Split_cons_ne (c : UInt8) (t : GoString) (sep : UInt8) (h : c ≠ sep) :
    ∃ hd tl, Split t sep = hd :: tl ∧ Split (c :: t) sep = (c :: hd) :: tl := by
  rw [Split, if_neg h]
  cases hs : Split t sep with
  | nil => exact absurd hs (Split_ne_nil t sep)
  | cons hd tl => exact ⟨hd, tl, rfl, rfl⟩

theorem Split_append (p q : GoString) (sep : UInt8) :
    Split (p ++ sep :: q) sep = Split p sep ++ Split q sep := by
  induction p with
  | nil => simp [Split]
  | cons c t ih =>
    by_cases h : c = sep
    · subst h
      rw [List.cons_append, Split, if_pos rfl, ih, Split, if_pos rfl]
      rfl
    · obtain ⟨hd, tl, h1, h2⟩ := Split_cons_ne c t sep h
      obtain ⟨hd', tl', h1', h2'⟩ := Split_cons_ne c (t ++ sep :: q) sep h
      rw [List.cons_append, h2', h2]
      rw [ih, h1] at h1'
      simp only [List.cons_append, List.cons.injEq] at h1'
      rw [← h1'.1, ← h1'.2]
      rfl

theorem Split_of_not_mem (c : GoString) (sep : UInt8) (h : sep ∉ c) : Split c sep = [c] := by
  induction c with
  | nil => rfl
  | cons a t ih =>
    have ha : a ≠ sep := fun e => h (e ▸ List.mem_cons_self _ _)
    have ht : sep ∉ t := fun e => h (List.mem_cons_of_mem _ e)
    rw [Split, if_neg ha, ih ht]

theorem Split_not_mem (s : GoString) (sep : UInt8) : ∀ c ∈ Split s sep, sep ∉ c := by
  induction s with
  | nil => intro c hc; simp [Split] at hc; subst hc; simp
  | cons a t ih =>
    by_cases h : a = sep
    · subst h
      intro c hc
      simp only [Split, if_true, List.mem_cons] at hc
      rcases hc with rfl | hc
      · simp
      · exact ih c hc
    · obtain ⟨hd, tl, h1, h2⟩ := Split_cons_ne a t sep h
      rw [h2]
      rw [h1] at ih
      intro c hc
      rw [List.mem_cons] at hc
      rcases hc with rfl | hc
      · intro hm
        rw [List.mem_cons] at hm
        rcases hm with hm | hm
        · exact h hm.symm
        · exact ih hd (List.mem_cons_self _ _) hm
      · exact ih c (List.mem_cons_of_mem _ hc)

theorem intercalate_cons_cons (sep a b : GoString) (l : List GoString) :
    List.intercalate sep (a :: b :: l) = a ++ sep ++ List.intercalate sep (b :: l) := by
  simp [List.intercalate, List.intersperse]

theorem intercalate_single (sep a : GoString) : List.intercalate sep [a] = a := by
  simp [List.intercalate, List.intersperse]

theorem intercalate_concat (sep : GoString) (l : List GoString) (a : GoString) (h : l ≠ []) :
    List.intercalate sep (l ++ [a]) = List.intercalate sep l ++ sep ++ a := by
  induction l with
  | nil => exact absurd rfl h
  | cons b t ih =>
    cases t with
    | nil => simp [List.intercalate, List.intersperse]
    | cons c t' =>
      rw [List.cons_append, List.cons_append, intercalate_cons_cons, ← List.cons_append]
      rw [ih (by simp), intercalate_cons_cons]
      simp [List.append_assoc]

theorem Split_intercalate (l : List GoString) (sep : UInt8) (hne : l ≠ [])
    (h : ∀ c ∈ l, sep ∉ c) : Split (List.intercalate [sep] l) sep = l := by
  induction l with
  | nil => exact absurd rfl hne
  | cons a t ih =>
    cases t with
    | nil =>
      rw [intercalate_single]
      exact Split_of_not_mem a sep (h a (List.mem_cons_self _ _))
    | cons b t' =>
      rw [intercalate_cons_cons]
      have : a ++ [sep] ++ List.intercalate [sep] (b :: t')
          = a ++ sep :: List.intercalate [sep] (b :: t') := by simp
      rw [this, Split_append, Split_of_not_mem a sep (h a (List.mem_cons_self _ _)),
        ih (by simp) (fun c hc => h c (List.mem_cons_of_mem _ hc))]
      rfl

theorem cleanStep_nil (rooted : Bool) (st : GoString × Nat) : cleanStep rooted st [] = st := by
  simp [cleanStep]

/-- A doubled slash does not change the result of `path.Clean`. -/
theorem Clean_double_slash (p q : GoString) (hp : p ≠ []) :
    Clean (p ++ 47 :: 47 :: q) = Clean (p ++ 47 :: q) := by
  obtain ⟨a, t, rfl⟩ := List.exists_cons_of_ne_nil hp
  unfold Clean
  simp only [List.cons_append, reduceCtorEq, if_false, List.head?_cons, List.drop_succ_cons,
    List.drop_zero]
  by_cases ha : a = 47
  · subst ha
    simp only [decide_True, if_true]
    rw [Split_append, Split_append]
    simp only [Split, if_true, List.foldl_append, List.foldl_cons, cleanStep_nil]
  · have : ¬ (some a = some (47 : UInt8)) := by simpa using ha
    simp only [this, decide_False, Bool.false_eq_true, if_false]
    rw [← List.cons_append, Split_append, ← List.cons_append, Split_append]
    simp only [Split, if_true, List.foldl_append, List.foldl_cons, cleanStep_nil]

theorem Join_pair (a b : GoString) (ha : a ≠ []) (hb : b ≠ []) :
    Join [a, b] = Clean (a ++ 47 :: b) := by
  simp [Join, ha, hb, List.intercalate, List.intersperse]

/-- For a non-empty workspace the label `//:WORKSPACE` is mapped to the `WORKSPACE` path. -/
theorem Join_slash_workspace (ws : GoString) (h : ws ≠ []) :
    Join [ws, lit "/WORKSPACE"] = Join [ws, workspaceFileName] := by
  have e1 : lit "/WORKSPACE" = 47 :: workspaceFileName := by decide
  have e2 : workspaceFileName ≠ [] := by decide
  rw [e1, Join_pair ws _ h (by simp), Join_pair ws _ h e2]
  exact Clean_double_slash ws workspaceFileName h

/-! ## The file sets returned by `Resolve` -/

theorem mapLabelsToFiles_length (ls fs : List GoString) (ob ws : GoString)
    (h : mapLabelsToFiles ls ob ws = some fs) :
    fs.length = (ls.filter (fun l => l ≠ [])).length := by
  induction ls generalizing fs with
  | nil => rw [mapLabelsToFiles_nil] at h; cases h; rfl
  | cons l ls ih =>
    rw [mapLabelsToFiles_cons] at h
    by_cases hl : l = []
    · rw [if_pos hl] at h
      rw [ih fs h]; simp [hl]
    · rw [if_neg hl] at h
      cases hf : labelToFile l ob ws with
      | none => rw [hf] at h; simp at h
      | some f =>
        cases hm : mapLabelsToFiles ls ob ws with
        | none => rw [hf, hm] at h; simp at h
        | some fs' =>
          rw [hf, hm] at h
          simp only [Option.some_bind, Option.map_some', Option.some.injEq] at h
          subst h
          simp [hl, ih fs' hm]

theorem mapLabelsToFiles_mem (ls fs : List GoString) (ob ws l : GoString)
    (h : mapLabelsToFiles ls ob ws = some fs) (hmem : l ∈ ls) (hl : l ≠ []) :
    ∃ f, labelToFile l ob ws = some f ∧ f ∈ fs := by
  induction ls generalizing fs with
  | nil => cases hmem
  | cons a ls ih =>
    rw [mapLabelsToFiles_cons] at h
    by_cases ha : a = []
    · rw [if_pos ha] at h
      rcases List.mem_cons.mp hmem with rfl | hm
      · exact absurd ha hl
      · exact ih fs h hm
    · rw [if_neg ha] at h
      cases hf : labelToFile a ob ws with
      | none => rw [hf] at h; simp at h
      | some f =>
        cases hm : mapLabelsToFiles ls ob ws with
        | none => rw [hf, hm] at h; simp at h
        | some fs' =>
          rw [hf, hm] at h
          simp only [Option.some_bind, Option.map_some', Option.some.injEq] at h
          subst h
          rcases List.mem_cons.mp hmem with rfl | hm'
          · exact ⟨f, hf, List.mem_cons_self _ _⟩
          · obtain ⟨g, hg, hgm⟩ := ih fs' hm hm'
            exact ⟨g, hg, List.mem_cons_of_mem _ hgm⟩

theorem Resolve_success (c : CommandDepResolver) (tool : Tool) (target : GoString)
    (src bld : List GoString) (h : (Resolve c tool target).result = some (src, bld, none)) :
    mapLabelsToFiles (sourceLabels c tool target) (outputBaseOf c tool) (workspaceOf c tool)
      = some src ∧
    ∃ mapped, mapLabelsToFiles (buildLabels c tool target) (outputBaseOf c tool)
        (workspaceOf c tool) = some mapped ∧
      bld = mapped ++ [workspaceFile c tool] := by
  obtain ⟨_, _, _, _, h5, h6⟩ := (Resolve_success_iff c tool target src bld).mp h
  exact ⟨h5, h6⟩

/-- C4, as the code has it. When `Resolve` succeeds, the build-file set is the mapped output
of the `buildfiles` query followed by exactly one appended element,
`path.Join(ws, "WORKSPACE")`: that path is its last element, its length is the number of
non-empty query lines plus one, and nothing is deduplicated (the path occurs once more than
among the mapped labels); when the workspace is not empty and the query prints
`//:WORKSPACE`, the path occurs at least twice. The source-file set is the mapped output of
the source query, without the appended element. -/
theorem Resolve_appends_workspace_file (c : CommandDepResolver) (tool : Tool)
    (target : GoString) (src bld : List GoString)
    (h : (Resolve c tool target).result = some (src, bld, none)) :
    ∃ mapped, mapLabelsToFiles (buildLabels c tool target) (outputBaseOf c tool)
        (workspaceOf c tool) = some mapped ∧
      bld = mapped ++ [workspaceFile c tool] ∧
      bld.getLast? = some (workspaceFile c tool) ∧
      bld.length = ((buildLabels c tool target).filter (fun l => l ≠ [])).length + 1 ∧
      bld.count (workspaceFile c tool) = mapped.count (workspaceFile c tool) + 1 ∧
      (workspaceOf c tool ≠ [] → lit "//:WORKSPACE" ∈ buildLabels c tool target →
        2 ≤ bld.count (workspaceFile c tool)) ∧
      mapLabelsToFiles (sourceLabels c tool target) (outputBaseOf c tool) (workspaceOf c tool)
        = some src ∧
      src.length = ((sourceLabels c tool target).filter (fun l => l ≠ [])).length := by
  obtain ⟨hsrc, mapped, hm, hb⟩ := Resolve_success c tool target src bld h
  have hcount : bld.count (workspaceFile c tool) = mapped.count (workspaceFile c tool) + 1 := by
    rw [hb, List.count_append]; simp
  refine ⟨mapped, hm, hb, ?_, ?_, hcount, ?_, hsrc, mapLabelsToFiles_length _ _ _ _ hsrc⟩
  · rw [hb, List.getLast?_concat]
  · rw [hb, List.length_append, mapLabelsToFiles_length _ _ _ _ hm]; rfl
  · intro hws hmem
    have hne : lit "//:WORKSPACE" ≠ [] := by decide
    obtain ⟨f, hf, hfm⟩ := mapLabelsToFiles_mem _ _ _ _ _ hm hmem hne
    have e : lit "//:WORKSPACE" = 47 :: 47 :: lit ":WORKSPACE" := by decide
    rw [e, labelToFile_slashes] at hf
    have e2 : replaceFirst 58 47 (lit ":WORKSPACE") = lit "/WORKSPACE" := by decide
    rw [e2, Join_slash_workspace _ hws] at hf
    have hfeq : f = workspaceFile c tool := (Option.some.inj hf).symm
    rw [hfeq] at hfm
    have : 0 < mapped.count (workspaceFile c tool) := List.count_pos_iff.mpr hfm
    omega

theorem Resolve_appends_workspace_file_witness :
    (Resolve ⟨lit "bazel", []⟩
      (scriptedTool ⟨lit "bazel", []⟩ (lit "//foo:bar") (lit "/ob\n", none) (lit "/ws\n", none)
        (lit "//foo:bar.src\n", none) (lit "//foo:BUILD\n//:WORKSPACE\n", none))
      (lit "//foo:bar")).result
      = some ([lit "/ws/foo/bar.src"],
          [lit "/ws/foo/BUILD", lit "/ws/WORKSPACE", lit "/ws/WORKSPACE"], none) ∧
    ∃ mapped, [lit "/ws/foo/BUILD", lit "/ws/WORKSPACE", lit "/ws/WORKSPACE"]
      = mapped ++ [workspaceFile ⟨lit "bazel", []⟩
          (scriptedTool ⟨lit "bazel", []⟩ (lit "//foo:bar") (lit "/ob\n", none)
            (lit "/ws\n", none) (lit "//foo:bar.src\n", none)
            (lit "//foo:BUILD\n//:WORKSPACE\n", none))] := by
  have h : (Resolve ⟨lit "bazel", []⟩
      (scriptedTool ⟨lit "bazel", []⟩ (lit "//foo:bar") (lit "/ob\n", none) (lit "/ws\n", none)
        (lit "//foo:bar.src\n", none) (lit "//foo:BUILD\n//:WORKSPACE\n", none))
      (lit "//foo:bar")).result
      = some ([lit "/ws/foo/bar.src"],
          [lit "/ws/foo/BUILD", lit "/ws/WORKSPACE", lit "/ws/WORKSPACE"], none) := by decide
  refine ⟨h, ?_⟩
  obtain ⟨mapped, _, hb, _⟩ := Resolve_appends_workspace_file _ _ _ _ _ h
  exact ⟨mapped, hb⟩

/-- C4 as stated fails for an empty workspace. `bazel info workspace` prints an empty line,
the `buildfiles` query prints `//:WORKSPACE`: the label is mapped to `/WORKSPACE`, the
appended element is `WORKSPACE`, and that path occurs once in the build-file set, not
twice. -/
theorem Resolve_workspace_file_counterexample :
    (Resolve ⟨lit "bazel", []⟩
      (scriptedTool ⟨lit "bazel", []⟩ (lit "//foo:bar") (lit "/ob\n", none) (lit "\n", none)
        (lit "//foo:bar.src\n", none) (lit "//:WORKSPACE\n", none))
      (lit "//foo:bar")).result
      = some ([lit "foo/bar.src"], [lit "/WORKSPACE", lit "WORKSPACE"], none) ∧
    Join [lit "", lit "WORKSPACE"] = lit "WORKSPACE" ∧
    [lit "/WORKSPACE", lit "WORKSPACE"].count (Join [lit "", lit "WORKSPACE"]) = 1 := by
  refine ⟨by decide, by decide, by decide⟩

/-! ## Errors of `Resolve` -/

/-- The seven ways an execution of `Resolve` can go. -/
theorem Resolve_cases (c : CommandDepResolver) (tool : Tool) (target : GoString) :
    (∃ e, (tool (bazelCmd c [lit "info", lit "output_base"])).2 = some e ∧
      Resolve c tool target = ⟨(resolveCalls c target).take 1, some ([], [], some e)⟩) ∨
    (∃ e, (tool (bazelCmd c [lit "info", lit "output_base"])).2 = none ∧
      (tool (bazelCmd c [lit "info", lit "workspace"])).2 = some e ∧
      Resolve c tool target = ⟨(resolveCalls c target).take 2, some ([], [], some e)⟩) ∨
    (∃ e, (tool (bazelCmd c [lit "info", lit "output_base"])).2 = none ∧
      (tool (bazelCmd c [lit "info", lit "workspace"])).2 = none ∧
      (tool (bazelCmd c [lit "query", queryTmpl target])).2 = some e ∧
      Resolve c tool target = ⟨(resolveCalls c target).take 3, some ([], [], some e)⟩) ∨
    ((tool (bazelCmd c [lit "info", lit "output_base"])).2 = none ∧
      (tool (bazelCmd c [lit "info", lit "workspace"])).2 = none ∧
      (tool (bazelCmd c [lit "query", queryTmpl target])).2 = none ∧
      mapLabelsToFiles (sourceLabels c tool target) (outputBaseOf c tool) (workspaceOf c tool)
        = none ∧
      Resolve c tool target = ⟨(resolveCalls c target).take 3, none⟩) ∨
    (∃ e src, (tool (bazelCmd c [lit "info", lit "output_base"])).2 = none ∧
      (tool (bazelCmd c [lit "info", lit "workspace"])).2 = none ∧
      (tool (bazelCmd c [lit "query", queryTmpl target])).2 = none ∧
      mapLabelsToFiles (sourceLabels c tool target) (outputBaseOf c tool) (workspaceOf c tool)
        = some src ∧
      (tool (bazelCmd c [lit "query", buildQueryTmpl target])).2 = some e ∧
      Resolve c tool target = ⟨resolveCalls c target, some ([], [], some e)⟩) ∨
    (∃ src, (tool (bazelCmd c [lit "info", lit "output_base"])).2 = none ∧
      (tool (bazelCmd c [lit "info", lit "workspace"])).2 = none ∧
      (tool (bazelCmd c [lit "query", queryTmpl target])).2 = none ∧
      mapLabelsToFiles (sourceLabels c tool target) (outputBaseOf c tool) (workspaceOf c tool)
        = some src ∧
      (tool (bazelCmd c [lit "query", buildQueryTmpl target])).2 = none ∧
      mapLabelsToFiles (buildLabels c tool target) (outputBaseOf c tool) (workspaceOf c tool)
        = none ∧
      Resolve c tool target = ⟨resolveCalls c target, none⟩) ∨
    (∃ src mapped, (tool (bazelCmd c [lit "info", lit "output_base"])).2 = none ∧
      (tool (bazelCmd c [lit "info", lit "workspace"])).2 = none ∧
      (tool (bazelCmd c [lit "query", queryTmpl target])).2 = none ∧
      mapLabelsToFiles (sourceLabels c tool target) (outputBaseOf c tool) (workspaceOf c tool)
        = some src ∧
      (tool (bazelCmd c [lit "query", buildQueryTmpl target])).2 = none ∧
      mapLabelsToFiles (buildLabels c tool target) (outputBaseOf c tool) (workspaceOf c tool)
        = some mapped ∧
      Resolve c tool target
        = ⟨resolveCalls c target, some (src, mapped ++ [workspaceFile c tool], none)⟩) := by
  cases h1 : (tool (bazelCmd c [lit "info", lit "output_base"])).2 with
  | some e => exact Or.inl ⟨e, rfl, Resolve_fail1 c tool target e h1⟩
  | none =>
    cases h2 : (tool (bazelCmd c [lit "info", lit "workspace"])).2 with
    | some e => exact Or.inr (Or.inl ⟨e, rfl, rfl, Resolve_fail2 c tool target e h1 h2⟩)
    | none =>
      cases h3 : (tool (bazelCmd c [lit "query", queryTmpl target])).2 with
      | some e =>
        exact Or.inr (Or.inr (Or.inl ⟨e, rfl, rfl, rfl, Resolve_fail3 c tool target e h1 h2 h3⟩))
      | none =>
        cases hm : mapLabelsToFiles (sourceLabels c tool target) (outputBaseOf c tool)
            (workspaceOf c tool) with
        | none =>
          exact Or.inr (Or.inr (Or.inr (Or.inl
            ⟨rfl, rfl, rfl, rfl, Resolve_panic3 c tool target h1 h2 h3 hm⟩)))
        | some src =>
          cases h4 : (tool (bazelCmd c [lit "query", buildQueryTmpl target])).2 with
          | some e =>
            exact Or.inr (Or.inr (Or.inr (Or.inr (Or.inl
              ⟨e, src, rfl, rfl, rfl, rfl, rfl, Resolve_fail4 c tool target e src h1 h2 h3 hm h4⟩))))
          | none =>
            cases hb : mapLabelsToFiles (buildLabels c tool target) (outputBaseOf c tool)
                (workspaceOf c tool) with
            | none =>
              exact Or.inr (Or.inr (Or.inr (Or.inr (Or.inr (Or.inl
                ⟨src, rfl, rfl, rfl, rfl, rfl, rfl,
                  Resolve_panic4 c tool target src h1 h2 h3 hm h4 hb⟩)))))
            | some mapped =>
              exact Or.inr (Or.inr (Or.inr (Or.inr (Or.inr (Or.inr
                ⟨src, mapped, rfl, rfl, rfl, rfl, rfl, rfl,
                  Resolve_ok c tool target src mapped h1 h2 h3 hm h4 hb⟩)))))

/-- C5, as the code has it. `Resolve` makes its calls in the order `info output_base`,
`info workspace`, source query, `buildfiles` query. If the k-th call is the first to fail,
with error `e` (and, for the fourth call, the output of the source query was mapped without
a panic), `Resolve` makes no later call and returns `(nil, nil, e)`; an error is never
returned with a file set; `Run` then returns that `e`, having called only the resolver.
`Resolve` returns a `nil` error exactly when all four calls succeed and both query outputs
are mapped without a panic. -/
theorem Resolve_error_propagation (c : CommandDepResolver) (tool : Tool) (target : GoString)
    (cfg : Config) (s : State) :
    (Resolve c tool target).calls <+: resolveCalls c target ∧
    (∀ k e, k < 4 → (∀ j, j < k → callError c tool target j = none) →
      callError c tool target k = some e →
      (k = 3 → (mapLabelsToFiles (sourceLabels c tool target) (outputBaseOf c tool)
        (workspaceOf c tool)).isSome = true) →
      Resolve c tool target = ⟨(resolveCalls c target).take (k + 1), some ([], [], some e)⟩) ∧
    (∀ src bld e, (Resolve c tool target).result = some (src, bld, some e) →
      src = [] ∧ bld = []) ∧
    (∀ e, s.pc = Pc.resolving → (Resolve c tool target).result = some ([], [], some e) →
      step cfg s (Input.resolved (Resolve c tool target).result)
        = some { s with trace := s.trace ++ [Action.resolve (targetStr cfg)],
                        sourceFiles := [], buildFiles := [], pc := Pc.returned e }) ∧
    ((∃ src bld, (Resolve c tool target).result = some (src, bld, none)) ↔
      (∀ k, k < 4 → callError c tool target k = none) ∧
      (mapLabelsToFiles (sourceLabels c tool target) (outputBaseOf c tool)
        (workspaceOf c tool)).isSome = true ∧
      (mapLabelsToFiles (buildLabels c tool target) (outputBaseOf c tool)
        (workspaceOf c tool)).isSome = true) := by
  have e0 : callError c tool target 0 = (tool (bazelCmd c [lit "info", lit "output_base"])).2 := rfl
  have e1 : callError c tool target 1 = (tool (bazelCmd c [lit "info", lit "workspace"])).2 := rfl
  have e2 : callError c tool target 2 = (tool (bazelCmd c [lit "query", queryTmpl target])).2 := rfl
  have e3 : callError c tool target 3
      = (tool (bazelCmd c [lit "query", buildQueryTmpl target])).2 := rfl
  refine ⟨?_, ?_, ?_, ?_, ?_⟩
  · rcases Resolve_cases c tool target with ⟨e, _, h⟩ | ⟨e, _, _, h⟩ | ⟨e, _, _, _, h⟩ |
      ⟨_, _, _, _, h⟩ | ⟨e, src, _, _, _, _, _, h⟩ | ⟨src, _, _, _, _, _, _, h⟩ |
      ⟨src, mapped, _, _, _, _, _, _, h⟩ <;> rw [h]
    · exact List.take_prefix _ _
    · exact List.take_prefix _ _
    · exact List.take_prefix _ _
    · exact List.take_prefix _ _
  · intro k e hk hprev hfail hmap
    have hk' : k = 0 ∨ k = 1 ∨ k = 2 ∨ k = 3 := by omega
    rcases hk' with rfl | rfl | rfl | rfl
    · rw [e0] at hfail
      exact Resolve_fail1 c tool target e hfail
    · rw [e1] at hfail
      have h0 := hprev 0 (by omega); rw [e0] at h0
      exact Resolve_fail2 c tool target e h0 hfail
    · rw [e2] at hfail
      have h0 := hprev 0 (by omega); rw [e0] at h0
      have h1 := hprev 1 (by omega); rw [e1] at h1
      exact Resolve_fail3 c tool target e h0 h1 hfail
    · rw [e3] at hfail
      have h0 := hprev 0 (by omega); rw [e0] at h0
      have h1 := hprev 1 (by omega); rw [e1] at h1
      have h2 := hprev 2 (by omega); rw [e2] at h2
      obtain ⟨src, hsrc⟩ := Option.isSome_iff_exists.mp (hmap rfl)
      exact Resolve_fail4 c tool target e src h0 h1 h2 hsrc hfail
  · intro src bld e hres
    rcases Resolve_cases c tool target with ⟨e, _, h⟩ | ⟨e, _, _, h⟩ | ⟨e, _, _, _, h⟩ |
      ⟨_, _, _, _, h⟩ | ⟨e, src, _, _, _, _, _, h⟩ | ⟨src, _, _, _, _, _, _, h⟩ |
      ⟨src, mapped, _, _, _, _, _, _, h⟩ <;> rw [h] at hres <;>
      simp only [Option.some.injEq, Prod.mk.injEq, reduceCtorEq, and_false] at hres
    · exact ⟨hres.1.symm, hres.2.1.symm⟩
    · exact ⟨hres.1.symm, hres.2.1.symm⟩
    · exact ⟨hres.1.symm, hres.2.1.symm⟩
    · exact ⟨hres.1.symm, hres.2.1.symm⟩
  · intro e hpc hres
    obtain ⟨pc, sf, bf, sw, bw, al, cr, tr⟩ := s
    simp only at hpc
    subst hpc
    rw [hres]
    rfl
  · constructor
    · rintro ⟨src, bld, hres⟩
      obtain ⟨h1, h2, h3, h4, h5, mapped, h6, _⟩ :=
        (Resolve_success_iff c tool target src bld).mp hres
      refine ⟨?_, ?_, ?_⟩
      · intro k hk
        have hk' : k = 0 ∨ k = 1 ∨ k = 2 ∨ k = 3 := by omega
        rcases hk' with rfl | rfl | rfl | rfl
        · rw [e0]; exact h1
        · rw [e1]; exact h2
        · rw [e2]; exact h3
        · rw [e3]; exact h4
      · exact Option.isSome_iff_exists.mpr ⟨src, h5⟩
      · exact Option.isSome_iff_exists.mpr ⟨mapped, h6⟩
    · rintro ⟨hall, hs, hb⟩
      obtain ⟨src, hsrc⟩ := Option.isSome_iff_exists.mp hs
      obtain ⟨mapped, hmapped⟩ := Option.isSome_iff_exists.mp hb
      have h0 := hall 0 (by omega); rw [e0] at h0
      have h1 := hall 1 (by omega); rw [e1] at h1
      have h2 := hall 2 (by omega); rw [e2] at h2
      have h3 := hall 3 (by omega); rw [e3] at h3
      refine ⟨src, mapped ++ [workspaceFile c tool], ?_⟩
      rw [Resolve_ok c tool target src mapped h0 h1 h2 hsrc h3 hmapped]
      rfl

/-- C5 as stated fails when a query prints a malformed label. First tool: all four calls
succeed and the `buildfiles` query prints the line `x`; `Resolve` makes the four calls and
panics, so it does not return a `nil` error. Second tool: the source query prints the line
`x` and the fourth call would fail; `Resolve` panics after the third call and returns no
error. -/
theorem Resolve_error_counterexample :
    ((List.range 4).map (callError ⟨lit "bazel", []⟩
      (scriptedTool ⟨lit "bazel", []⟩ (lit "//foo:bar") (lit "/ob\n", none) (lit "/ws\n", none)
        (lit "//foo:bar.src\n", none) (lit "x\n", none)) (lit "//foo:bar"))
      = [none, none, none, none] ∧
    Resolve ⟨lit "bazel", []⟩
      (scriptedTool ⟨lit "bazel", []⟩ (lit "//foo:bar") (lit "/ob\n", none) (lit "/ws\n", none)
        (lit "//foo:bar.src\n", none) (lit "x\n", none)) (lit "//foo:bar")
      = ⟨resolveCalls ⟨lit "bazel", []⟩ (lit "//foo:bar"), none⟩) ∧
    ((List.range 4).map (callError ⟨lit "bazel", []⟩
      (scriptedTool ⟨lit "bazel", []⟩ (lit "//foo:bar") (lit "/ob\n", none) (lit "/ws\n", none)
        (lit "x\n", none) (lit "", some (GoError.exitError 7))) (lit "//foo:bar"))
      = [none, none, none, some (GoError.exitError 7)] ∧
    Resolve ⟨lit "bazel", []⟩
      (scriptedTool ⟨lit "bazel", []⟩ (lit "//foo:bar") (lit "/ob\n", none) (lit "/ws\n", none)
        (lit "x\n", none) (lit "", some (GoError.exitError 7))) (lit "//foo:bar")
      = ⟨(resolveCalls ⟨lit "bazel", []⟩ (lit "//foo:bar")).take 3, none⟩) := by
  refine ⟨⟨by decide, by decide⟩, ⟨by decide, by decide⟩⟩

/-- C9, as the code has it. When `Resolve` succeeds, the source-file set is the mapped
output of the source query and the build-file set is the mapped output of the `buildfiles`
query followed by the `WORKSPACE` path; nothing is removed from either, so the two sets are
disjoint exactly when no mapped source path is a mapped build path or the `WORKSPACE`
path. -/
theorem Resolve_disjoint_iff (c : CommandDepResolver) (tool : Tool) (target : GoString)
    (src bld : List GoString) (h : (Resolve c tool target).result = some (src, bld, none)) :
    ∃ mapped,
      mapLabelsToFiles (sourceLabels c tool target) (outputBaseOf c tool) (workspaceOf c tool)
        = some src ∧
      mapLabelsToFiles (buildLabels c tool target) (outputBaseOf c tool) (workspaceOf c tool)
        = some mapped ∧
      bld = mapped ++ [workspaceFile c tool] ∧
      (List.Disjoint src bld ↔ List.Disjoint src mapped ∧ workspaceFile c tool ∉ src) := by
  obtain ⟨hsrc, mapped, hm, hb⟩ := Resolve_success c tool target src bld h
  refine ⟨mapped, hsrc, hm, hb, ?_⟩
  rw [hb, List.disjoint_append_right, List.disjoint_singleton]

theorem Resolve_disjoint_iff_witness :
    (Resolve ⟨lit "bazel", []⟩
      (scriptedTool ⟨lit "bazel", []⟩ (lit "//foo:bar") (lit "/ob\n", none) (lit "/ws\n", none)
        (lit "//foo:bar.src\n@dep//lib:x.src\n", none) (lit "//foo:BUILD\n", none))
      (lit "//foo:bar")).result
      = some ([lit "/ws/foo/bar.src", lit "/ob/external/dep/lib/x.src"],
          [lit "/ws/foo/BUILD", lit "/ws/WORKSPACE"], none) ∧
    ∃ mapped, [lit "/ws/foo/BUILD", lit "/ws/WORKSPACE"]
        = mapped ++ [workspaceFile ⟨lit "bazel", []⟩
          (scriptedTool ⟨lit "bazel", []⟩ (lit "//foo:bar") (lit "/ob\n", none)
            (lit "/ws\n", none) (lit "//foo:bar.src\n@dep//lib:x.src\n", none)
            (lit "//foo:BUILD\n", none))] ∧
      (List.Disjoint [lit "/ws/foo/bar.src", lit "/ob/external/dep/lib/x.src"]
          [lit "/ws/foo/BUILD", lit "/ws/WORKSPACE"] ↔
        List.Disjoint [lit "/ws/foo/bar.src", lit "/ob/external/dep/lib/x.src"] mapped ∧
          workspaceFile ⟨lit "bazel", []⟩
            (scriptedTool ⟨lit "bazel", []⟩ (lit "//foo:bar") (lit "/ob\n", none)
              (lit "/ws\n", none) (lit "//foo:bar.src\n@dep//lib:x.src\n", none)
              (lit "//foo:BUILD\n", none))
            ∉ [lit "/ws/foo/bar.src", lit "/ob/external/dep/lib/x.src"]) := by
  have h : (Resolve ⟨lit "bazel", []⟩
      (scriptedTool ⟨lit "bazel", []⟩ (lit "//foo:bar") (lit "/ob\n", none) (lit "/ws\n", none)
        (lit "//foo:bar.src\n@dep//lib:x.src\n", none) (lit "//foo:BUILD\n", none))
      (lit "//foo:bar")).result
      = some ([lit "/ws/foo/bar.src", lit "/ob/external/dep/lib/x.src"],
          [lit "/ws/foo/BUILD", lit "/ws/WORKSPACE"], none) := by decide
  refine ⟨h, ?_⟩
  obtain ⟨mapped, _, _, hb, hd⟩ := Resolve_disjoint_iff _ _ _ _ _ h
  exact ⟨mapped, hb, hd⟩

/-- C9 as stated fails: the two file sets can share a path. Both queries print the label
`//a:b`; `Resolve` succeeds and `/ws/a/b` is in the source-file set and in the build-file
set. -/
theorem Resolve_disjoint_counterexample :
    (Resolve ⟨lit "bazel", []⟩
      (scriptedTool ⟨lit "bazel", []⟩ (lit "//foo:bar") (lit "/ob\n", none) (lit "/ws\n", none)
        (lit "//a:b\n", none) (lit "//a:b\n", none))
      (lit "//foo:bar")).result
      = some ([lit "/ws/a/b"], [lit "/ws/a/b", lit "/ws/WORKSPACE"], none) ∧
    ¬ List.Disjoint [lit "/ws/a/b"] [lit "/ws/a/b", lit "/ws/WORKSPACE"] := by
  refine ⟨by decide, ?_⟩
  intro hd
  exact hd (List.mem_singleton.mpr rfl) (List.mem_cons_self _ _)

/-! ## The states of `path.Clean`: `path.Join` is compositional -/

theorem backtrack_stop (out : GoString) (dotdot p : Nat) (hdd : dotdot ≤ p)
    (hstop : p ≤ dotdot ∨ out.getD p 0 = 47) (k : Nat)
    (hk : ∀ j, p < j → j ≤ p + k → out.getD j 0 ≠ 47) :
    backtrack out dotdot (p + k) = p := by
  induction k with
  | zero =>
    cases p with
    | zero => rfl
    | succ w =>
      rw [Nat.add_zero, backtrack]
      have : ¬ (dotdot < w + 1 ∧ out.getD (w + 1) 0 ≠ 47) := by
        rintro ⟨h1, h2⟩
        rcases hstop with h | h
        · omega
        · exact h2 h
      rw [if_neg this]
  | succ k ih =>
    have hnext : out.getD (p + k + 1) 0 ≠ 47 := hk (p + k + 1) (by omega) (by omega)
    rw [← Nat.add_assoc, backtrack, if_pos ⟨by omega, hnext⟩]
    exact ih (fun j h1 h2 => hk j h1 (by omega))

/-- The `..` case of `path.Clean` removes the last element: the bytes `rest` without a slash
and the byte `x` before them, which is a slash or the first byte after `dotdot`. -/
theorem backtrack_take (pre : GoString) (x : UInt8) (rest : GoString) (dotdot : Nat)
    (hdd : dotdot ≤ pre.length) (hx : pre.length ≤ dotdot ∨ x = 47) (hrest : 47 ∉ rest) :
    List.take (backtrack (pre ++ x :: rest) dotdot ((pre ++ x :: rest).length - 1))
      (pre ++ x :: rest) = pre := by
  have hlen : (pre ++ x :: rest).length - 1 = pre.length + rest.length := by
    simp
  rw [hlen, backtrack_stop (pre ++ x :: rest) dotdot pre.length hdd ?_ rest.length ?_]
  · simp
  · rcases hx with h | h
    · exact Or.inl h
    · right
      rw [List.getD_eq_getElem?_getD, List.getElem?_append_right (le_refl _)]
      simp [h]
  · intro j h1 h2
    rw [List.getD_eq_getElem?_getD, List.getElem?_append_right (le_of_lt h1)]
    obtain ⟨i, hi⟩ : ∃ i, j - pre.length = i + 1 := ⟨j - pre.length - 1, by omega⟩
    rw [hi, List.getElem?_cons_succ]
    have hil : i < rest.length := by omega
    rw [List.getElem?_eq_getElem hil]
    simp only [Option.getD_some]
    intro h47
    exact hrest (h47 ▸ List.getElem_mem hil)

theorem intercalate_eq_nil_iff (l : List GoString) (h : ∀ c ∈ l, c ≠ []) :
    List.intercalate [47] l = [] ↔ l = [] := by
  constructor
  · intro hl
    cases l with
    | nil => rfl
    | cons a t =>
      exfalso
      cases t with
      | nil =>
        rw [intercalate_single] at hl
        exact h a (List.mem_cons_self _ _) hl
      | cons b t' =>
        rw [intercalate_cons_cons] at hl
        simp at hl
  · rintro rfl; rfl

theorem intercalate_append_length_le (sep : GoString) (a b : List GoString) :
    (List.intercalate sep a).length ≤ (List.intercalate sep (a ++ b)).length := by
  induction b using List.reverseRecOn with
  | nil => simp
  | append_singleton b x ih =>
    by_cases hab : a ++ b = []
    · have ha : a = [] := (List.append_eq_nil.mp hab).1
      subst ha
      simp [List.intercalate]
    · rw [← List.append_assoc, intercalate_concat sep (a ++ b) x hab]
      simp only [List.length_append]
      omega

theorem cleanInit_eq (rooted : Bool) : cleanInit rooted = cleanState rooted 0 [] := by
  cases rooted <;> rfl

theorem dotdots_zero : dotdots 0 = [] := rfl

theorem dotdots_succ (n : Nat) : dotdots (n + 1) = dotdots n ++ [[46, 46]] := by
  unfold dotdots
  rw [List.replicate_succ']

theorem dotdots_eq_nil (n : Nat) (h : dotdots n = []) : n = 0 := by
  cases n with
  | zero => rfl
  | succ n => rw [dotdots_succ] at h; simp at h

theorem mem_dotdots (n : Nat) (c : GoString) (h : c ∈ dotdots n) : c = [46, 46] :=
  List.eq_of_mem_replicate h

theorem elems_nonempty (n : Nat) (cs : List GoString) (h : ∀ c ∈ cs, RealElem c) :
    ∀ c ∈ dotdots n ++ cs, c ≠ [] := by
  intro c hc
  rcases List.mem_append.mp hc with h1 | h1
  · rw [mem_dotdots n c h1]; simp
  · exact (h c h1).1

theorem rootOf_length (rooted : Bool) : (rootOf rooted).length = if rooted = true then 1 else 0 := by
  cases rooted <;> rfl

/-- A copied element is appended to the output, after a slash unless the output is still
empty (or only the root slash). -/
theorem cleanStep_push (rooted : Bool) (n : Nat) (cs : List GoString) (c : GoString)
    (hc : RealElem c) (hcs : ∀ c ∈ cs, RealElem c) :
    cleanStep rooted (cleanState rooted n cs) c = cleanState rooted n (cs ++ [c]) := by
  obtain ⟨h1, h2, h3, _⟩ := hc
  unfold cleanStep
  rw [if_neg h1, if_neg h2, if_neg h3]
  unfold cleanState
  simp only
  by_cases hl : dotdots n ++ cs = []
  · rw [← List.append_assoc, hl]
    cases rooted <;> simp [intercalate_single, List.intercalate, rootOf]
  · have hne : List.intercalate [47] (dotdots n ++ cs) ≠ [] :=
      fun h => hl ((intercalate_eq_nil_iff _ (elems_nonempty n cs hcs)).mp h)
    have hpos : 0 < (List.intercalate [47] (dotdots n ++ cs)).length :=
      List.length_pos.mpr hne
    rw [← List.append_assoc, intercalate_concat _ _ _ hl]
    have h0 : ¬ ((List.intercalate [47] (dotdots n ++ cs)).length = 0) := by omega
    cases rooted <;> simp [rootOf, h0]

/-- An element `..` removes the last copied element. -/
theorem cleanStep_pop (rooted : Bool) (n : Nat) (cs : List GoString) (c : GoString)
    (hc : RealElem c) :
    cleanStep rooted (cleanState rooted n (cs ++ [c])) [46, 46] = cleanState rooted n cs := by
  obtain ⟨h1, _, _, h4⟩ := hc
  obtain ⟨x, rest, rfl⟩ := List.exists_cons_of_ne_nil h1
  have hrest : (47 : UInt8) ∉ rest := fun e => h4 (List.mem_cons_of_mem _ e)
  have hle := intercalate_append_length_le [47] (dotdots n) cs
  unfold cleanStep
  rw [if_neg (by simp), if_neg (by decide), if_pos rfl]
  unfold cleanState
  simp only
  by_cases hl : dotdots n ++ cs = []
  · -- the element is the first one: the output is the root followed by it
    have hn : dotdots n = [] := (List.append_eq_nil.mp hl).1
    have hcs' : cs = [] := (List.append_eq_nil.mp hl).2
    subst hcs'
    rw [hn]
    simp only [List.nil_append, intercalate_single, List.append_nil]
    have hint : List.intercalate [47] ([] : List GoString) = [] := rfl
    rw [hint]
    simp only [List.length_nil, Nat.add_zero, List.append_nil]
    have hlt : (rootOf rooted).length < (rootOf rooted ++ x :: rest).length := by simp
    rw [if_pos hlt]
    rw [backtrack_take (rootOf rooted) x rest (rootOf rooted).length (le_refl _)
      (Or.inl (le_refl _)) hrest]
  · have hcat : List.intercalate [47] (dotdots n ++ (cs ++ [x :: rest]))
        = List.intercalate [47] (dotdots n ++ cs) ++ 47 :: x :: rest := by
      rw [← List.append_assoc, intercalate_concat _ _ _ hl]
      simp
    rw [hcat]
    have hlt : (rootOf rooted).length + (List.intercalate [47] (dotdots n)).length
        < (rootOf rooted ++ (List.intercalate [47] (dotdots n ++ cs) ++ 47 :: x :: rest)).length := by
      simp only [List.length_append, List.length_cons]
      omega
    rw [if_pos hlt]
    have := backtrack_take (rootOf rooted ++ List.intercalate [47] (dotdots n ++ cs))
      47 (x :: rest) ((rootOf rooted).length + (List.intercalate [47] (dotdots n)).length)
      (by simp only [List.length_append]; omega) (Or.inr rfl) h4
    rw [List.append_assoc] at this
    rw [this]

theorem cleanStep_dot (rooted : Bool) (st : GoString × Nat) : cleanStep rooted st [46] = st := by
  unfold cleanStep
  rw [if_neg (by decide), if_pos rfl]

theorem cleanStep_dotdot_root : cleanStep true (cleanState true 0 []) [46, 46]
    = cleanState true 0 [] := by decide

/-- An element `..` at the start of a path that is not rooted is kept, and later `..` stop
there. -/
theorem cleanStep_dotdot_keep (n : Nat) :
    cleanStep false (cleanState false n []) [46, 46] = cleanState false (n + 1) [] := by
  unfold cleanStep
  rw [if_neg (by decide), if_neg (by decide), if_pos rfl]
  unfold cleanState
  simp only [List.append_nil, rootOf, Bool.false_eq_true, if_false, List.nil_append,
    List.length_nil, Nat.zero_add, lt_self_iff_false]
  by_cases hn : dotdots n = []
  · have h0 : n = 0 := dotdots_eq_nil n hn
    subst h0
    rfl
  · rw [dotdots_succ, intercalate_concat _ _ _ hn]
    have hne : List.intercalate [47] (dotdots n) ≠ [] := by
      intro h
      exact hn ((intercalate_eq_nil_iff _ (fun c hc => by rw [mem_dotdots n c hc]; simp)).mp h)
    have hpos : 0 < (List.intercalate [47] (dotdots n)).length := List.length_pos.mpr hne
    simp only [hpos, if_true]

/-- Every state the loop of `path.Clean` reaches is a state `cleanState`. -/
theorem cleanStep_reach (rooted : Bool) (comps : List GoString) (hcomps : ∀ c ∈ comps, 47 ∉ c)
    (n : Nat) (cs : List GoString) (hn : rooted = true → n = 0) (hcs : ∀ c ∈ cs, RealElem c) :
    ∃ n' cs', (rooted = true → n' = 0) ∧ (∀ c ∈ cs', RealElem c) ∧
      comps.foldl (cleanStep rooted) (cleanState rooted n cs) = cleanState rooted n' cs' := by
  induction comps generalizing n cs with
  | nil => exact ⟨n, cs, hn, hcs, rfl⟩
  | cons c comps ih =>
    have hrest : ∀ c ∈ comps, 47 ∉ c := fun x hx => hcomps x (List.mem_cons_of_mem _ hx)
    have hc47 : 47 ∉ c := hcomps c (List.mem_cons_self _ _)
    rw [List.foldl_cons]
    by_cases h1 : c = []
    · rw [h1, cleanStep_nil]; exact ih hrest n cs hn hcs
    by_cases h2 : c = [46]
    · rw [h2, cleanStep_dot]; exact ih hrest n cs hn hcs
    by_cases h3 : c = [46, 46]
    · rw [h3]
      rcases List.eq_nil_or_concat cs with hnil | ⟨cs', x, hx⟩
      · subst hnil
        cases rooted with
        | true =>
          have : n = 0 := hn rfl
          subst this
          rw [cleanStep_dotdot_root]
          exact ih hrest 0 [] hn hcs
        | false =>
          rw [cleanStep_dotdot_keep]
          exact ih hrest (n + 1) [] (fun h => absurd h (by simp)) hcs
      · rw [List.concat_eq_append] at hx
        subst hx
        rw [cleanStep_pop rooted n cs' x (hcs x (by simp))]
        exact ih hrest n cs' hn (fun y hy => hcs y (by simp [hy]))
    · have hreal : RealElem c := ⟨h1, h2, h3, hc47⟩
      rw [cleanStep_push rooted n cs c hreal hcs]
      refine ih hrest n (cs ++ [c]) hn ?_
      intro y hy
      rcases List.mem_append.mp hy with h | h
      · exact hcs y h
      · rw [List.mem_singleton.mp h]; exact hreal

/-- Running the loop on the elements of a state leads to that state. -/
theorem cleanStep_elems (rooted : Bool) (n : Nat) (cs : List GoString)
    (hn : rooted = true → n = 0) (hcs : ∀ c ∈ cs, RealElem c) :
    (dotdots n ++ cs).foldl (cleanStep rooted) (cleanState rooted 0 [])
      = cleanState rooted n cs := by
  have hdots : (dotdots n).foldl (cleanStep rooted) (cleanState rooted 0 [])
      = cleanState rooted n [] := by
    cases rooted with
    | true => rw [hn rfl]; rfl
    | false =>
      clear hn
      induction n with
      | zero => rfl
      | succ n ih => rw [dotdots_succ, List.foldl_append, ih, List.foldl_cons, List.foldl_nil,
          cleanStep_dotdot_keep]
  rw [List.foldl_append, hdots]
  clear hdots
  induction cs using List.reverseRecOn with
  | nil => rfl
  | append_singleton cs c ih =>
    have hcs' : ∀ c ∈ cs, RealElem c := fun y hy => hcs y (by simp [hy])
    rw [List.foldl_append, ih hcs', List.foldl_cons, List.foldl_nil,
      cleanStep_push rooted n cs c (hcs c (by simp)) hcs']

theorem Clean_eq (y : GoString) (hy : y ≠ []) :
    Clean y = cleanResult (cleanRun (isRooted y) (cleanBody y)).1 := by
  unfold Clean cleanResult cleanRun cleanBody isRooted
  rw [if_neg hy]
  cases h : decide (y.head? = some 47) <;> simp_all

theorem isRooted_append (y d : GoString) (hy : y ≠ []) : isRooted (y ++ d) = isRooted y := by
  obtain ⟨a, t, rfl⟩ := List.exists_cons_of_ne_nil hy
  rfl

theorem cleanBody_append (y d : GoString) (hy : y ≠ []) :
    cleanBody (y ++ d) = cleanBody y ++ d := by
  unfold cleanBody
  rw [isRooted_append y d hy]
  obtain ⟨a, t, rfl⟩ := List.exists_cons_of_ne_nil hy
  cases isRooted (a :: t) <;> simp

theorem cleanRun_append (rooted : Bool) (b d : GoString) :
    cleanRun rooted (b ++ 47 :: d) = (Split d 47).foldl (cleanStep rooted) (cleanRun rooted b) := by
  unfold cleanRun
  rw [Split_append, List.foldl_append]

theorem intercalate_head (a : GoString) (t : List GoString) (ha : a ≠ []) :
    (List.intercalate [47] (a :: t)).head? = a.head? := by
  obtain ⟨x, r, rfl⟩ := List.exists_cons_of_ne_nil ha
  cases t with
  | nil => rw [intercalate_single]
  | cons b t' => rw [intercalate_cons_cons]; rfl

theorem elems_no_slash (n : Nat) (cs : List GoString) (h : ∀ c ∈ cs, RealElem c) :
    ∀ c ∈ dotdots n ++ cs, (47 : UInt8) ∉ c := by
  intro c hc
  rcases List.mem_append.mp hc with h1 | h1
  · rw [mem_dotdots n c h1]; decide
  · exact (h c h1).2.2.2

/-- Cleaning the result of `path.Clean` again runs the loop into the same state. -/
theorem cleanRun_result (rooted : Bool) (n : Nat) (cs : List GoString)
    (hn : rooted = true → n = 0) (hcs : ∀ c ∈ cs, RealElem c) :
    cleanResult (cleanState rooted n cs).1 ≠ [] ∧
    isRooted (cleanResult (cleanState rooted n cs).1) = rooted ∧
    cleanRun rooted (cleanBody (cleanResult (cleanState rooted n cs).1))
      = cleanState rooted n cs := by
  cases rooted with
  | true =>
    have h0 : n = 0 := hn rfl
    subst h0
    have hout : (cleanState true 0 cs).1 = 47 :: List.intercalate [47] cs := rfl
    have hres : cleanResult (cleanState true 0 cs).1 = 47 :: List.intercalate [47] cs := by
      rw [hout]; rfl
    rw [hres]
    refine ⟨by simp, rfl, ?_⟩
    have hbody : cleanBody (47 :: List.intercalate [47] cs) = List.intercalate [47] cs := rfl
    rw [hbody]
    unfold cleanRun
    by_cases hnil : cs = []
    · subst hnil; rfl
    · rw [Split_intercalate cs 47 hnil (fun c hc => (hcs c hc).2.2.2), cleanInit_eq]
      exact cleanStep_elems true 0 cs hn hcs
  | false =>
    have hout : (cleanState false n cs).1 = List.intercalate [47] (dotdots n ++ cs) := rfl
    rw [hout]
    by_cases hnil : dotdots n ++ cs = []
    · have h1 : dotdots n = [] := (List.append_eq_nil.mp hnil).1
      have h2 : cs = [] := (List.append_eq_nil.mp hnil).2
      have h0 : n = 0 := dotdots_eq_nil n h1
      subst h0; subst h2
      refine ⟨by decide, by decide, by decide⟩
    · have hne : List.intercalate [47] (dotdots n ++ cs) ≠ [] :=
        fun h => hnil ((intercalate_eq_nil_iff _ (elems_nonempty n cs hcs)).mp h)
      have hres : cleanResult (List.intercalate [47] (dotdots n ++ cs))
          = List.intercalate [47] (dotdots n ++ cs) := by
        unfold cleanResult; rw [if_neg hne]
      rw [hres]
      have hroot : isRooted (List.intercalate [47] (dotdots n ++ cs)) = false := by
        obtain ⟨a, t, hat⟩ := List.exists_cons_of_ne_nil hnil
        have ha : a ∈ dotdots n ++ cs := by rw [hat]; exact List.mem_cons_self _ _
        have hane := elems_nonempty n cs hcs a ha
        have ha47 := elems_no_slash n cs hcs a ha
        unfold isRooted
        rw [hat, intercalate_head a t hane]
        obtain ⟨x, r, rfl⟩ := List.exists_cons_of_ne_nil hane
        have hx : x ≠ 47 := fun e => ha47 (e ▸ List.mem_cons_self _ _)
        simp [hx]
      refine ⟨hne, hroot, ?_⟩
      unfold cleanBody
      rw [hroot]
      simp only [Bool.false_eq_true, if_false]
      unfold cleanRun
      rw [Split_intercalate _ 47 hnil (elems_no_slash n cs hcs), cleanInit_eq]
      exact cleanStep_elems false n cs hn hcs

/-- The result of `path.Clean` is not empty, is rooted exactly when the path is, and is read
by the loop into the state the path itself leads to. -/
theorem Clean_reparse (y : GoString) (hy : y ≠ []) :
    Clean y ≠ [] ∧ isRooted (Clean y) = isRooted y ∧
      cleanRun (isRooted y) (cleanBody (Clean y)) = cleanRun (isRooted y) (cleanBody y) := by
  obtain ⟨n, cs, hn, hcs, hrun⟩ := cleanStep_reach (isRooted y) (Split (cleanBody y) 47)
    (Split_not_mem _ 47) 0 [] (fun _ => rfl) (fun c hc => absurd hc (List.not_mem_nil c))
  rw [← cleanInit_eq] at hrun
  have hrun' : cleanRun (isRooted y) (cleanBody y) = cleanState (isRooted y) n cs := hrun
  rw [Clean_eq y hy, hrun']
  exact cleanRun_result (isRooted y) n cs hn hcs

theorem Clean_idempotent (y : GoString) (hy : y ≠ []) : Clean (Clean y) = Clean y := by
  obtain ⟨h1, h2, h3⟩ := Clean_reparse y hy
  rw [Clean_eq (Clean y) h1, h2, h3, ← Clean_eq y hy]

/-- Cleaning the front part of a path first does not change the result. -/
theorem Clean_Clean_append (y d : GoString) (hy : y ≠ []) :
    Clean (Clean y ++ 47 :: d) = Clean (y ++ 47 :: d) := by
  obtain ⟨h1, h2, h3⟩ := Clean_reparse y hy
  rw [Clean_eq (Clean y ++ 47 :: d) (by simp [h1]), Clean_eq (y ++ 47 :: d) (by simp [hy])]
  rw [isRooted_append _ _ h1, isRooted_append _ _ hy, cleanBody_append _ _ h1,
    cleanBody_append _ _ hy, h2, cleanRun_append, cleanRun_append, h3]

theorem Join_eq (elem : List GoString) :
    Join elem = if elem.filter (fun e => e ≠ []) = [] then []
      else Clean (List.intercalate [47] (elem.filter (fun e => e ≠ []))) := rfl

/-- Go `path.Join` of a joined path and one more element is `path.Join` of all the elements. -/
theorem Join_Join (xs : List GoString) (d : GoString) :
    Join [Join xs, d] = Join (xs ++ [d]) := by
  by_cases hP : xs.filter (fun e => e ≠ []) = []
  · have hx : Join xs = [] := by rw [Join_eq, if_pos hP]
    rw [hx, Join_eq, Join_eq (xs ++ [d]), List.filter_append, hP]
    simp
  · have hPne : ∀ c ∈ xs.filter (fun e => e ≠ []), c ≠ [] := by
      intro c hc
      have := (List.mem_filter.mp hc).2
      simpa using this
    have hy : List.intercalate [47] (xs.filter (fun e => e ≠ [])) ≠ [] :=
      fun h => hP ((intercalate_eq_nil_iff _ hPne).mp h)
    have hx : Join xs = Clean (List.intercalate [47] (xs.filter (fun e => e ≠ []))) := by
      rw [Join_eq, if_neg hP]
    have hxne : Join xs ≠ [] := by rw [hx]; exact (Clean_reparse _ hy).1
    by_cases hd : d = []
    · subst hd
      rw [Join_eq, Join_eq (xs ++ [[]]), List.filter_append]
      have e1 : List.filter (fun e => decide (e ≠ [])) [Join xs, ([] : GoString)] = [Join xs] := by
        simp [List.filter, hxne]
      have e2 : List.filter (fun e => decide (e ≠ [])) [([] : GoString)] = [] := by
        simp [List.filter]
      rw [e1, e2, List.append_nil, if_neg hP, if_neg (by simp), intercalate_single, hx,
        Clean_idempotent _ hy]
    · rw [Join_eq, Join_eq (xs ++ [d]), List.filter_append]
      have e1 : List.filter (fun e => decide (e ≠ [])) [Join xs, d] = [Join xs, d] := by
        simp [List.filter, hxne, hd]
      have e2 : List.filter (fun e => decide (e ≠ [])) [d] = [d] := by
        simp [List.filter, hd]
      rw [e1, e2, if_neg (by simp), if_neg (by simp), intercalate_cons_cons, intercalate_single,
        intercalate_concat _ _ _ hP, hx]
      have := Clean_Clean_append (List.intercalate [47] (xs.filter (fun e => e ≠ []))) d hy
      simpa [List.append_assoc] using this

/-! ## External labels -/

theorem indexFrom_slashes (p q : GoString) (h : 47 ∉ p) (i : Nat) :
    indexFrom [47, 47] (p ++ 47 :: 47 :: q) i = ((i + p.length : Nat) : Int) := by
  induction p generalizing i with
  | nil =>
    rw [List.nil_append, indexFrom]
    have : ([47, 47] : GoString).isPrefixOf (47 :: 47 :: q) = true := by
      simp [List.isPrefixOf]
    rw [if_pos this]; simp
  | cons c t ih =>
    have hc : c ≠ 47 := fun e => h (e ▸ List.mem_cons_self _ _)
    have ht : 47 ∉ t := fun e => h (List.mem_cons_of_mem _ e)
    rw [List.cons_append, indexFrom]
    have : ¬ (([47, 47] : GoString).isPrefixOf (c :: (t ++ 47 :: 47 :: q)) = true) := by
      simp [List.isPrefixOf, Ne.symm hc]
    rw [if_neg this, ih ht (i + 1)]
    simp only [List.length_cons]
    congr 1
    omega

theorem labelToFile_at (repo rest ob ws : GoString) (h : 47 ∉ repo) :
    labelToFile (64 :: (repo ++ 47 :: 47 :: rest)) ob ws
      = some (Join [ob, externalName, repo, replaceFirst 58 47 rest]) := by
  have hp : HasPrefix (64 :: (repo ++ 47 :: 47 :: rest)) externalPrefix = true :=
    (hasPrefix_at_iff _).mpr ⟨_, rfl⟩
  have hidx : Index (64 :: (repo ++ 47 :: 47 :: rest)) labelPrefix
      = ((repo.length + 1 : Nat) : Int) := by
    rw [labelPrefix_eq]
    unfold Index
    have h64 : (47 : UInt8) ∉ (64 :: repo) := by
      intro hm
      rcases List.mem_cons.mp hm with h1 | h1
      · exact absurd h1 (by decide)
      · exact h h1
    have := indexFrom_slashes (64 :: repo) rest h64 0
    simp only [List.cons_append, List.length_cons, Nat.zero_add] at this
    exact this
  have hlen : repo.length + 1 ≤ (64 :: (repo ++ 47 :: 47 :: rest)).length := by
    simp
  rw [labelToFile_external _ _ _ hp, hidx]
  have hs := slice_eq_some (64 :: (repo ++ 47 :: 47 :: rest)) 1 (repo.length + 1) (by omega) hlen
  simp only [Nat.cast_one] at hs
  rw [hs, Option.some_bind]
  have hrepo : List.drop 1 (List.take (repo.length + 1) (64 :: (repo ++ 47 :: 47 :: rest)))
      = repo := by
    simp
  rw [hrepo]
  have hs2 := sliceFrom_eq_some (64 :: (repo ++ 47 :: 47 :: rest)) (repo.length + 1) hlen
  have hcast : ((repo.length : Int) + 1) = ((repo.length + 1 : Nat) : Int) := by push_cast; rfl
  rw [hcast, hs2, Option.some_bind]
  have hdrop : List.drop (repo.length + 1) (64 :: (repo ++ 47 :: 47 :: rest))
      = 47 :: 47 :: rest := by
    simp
  rw [hdrop]
  have hs3 := sliceFrom_eq_some (47 :: 47 :: rest) 2 (by simp)
  simp only [Nat.cast_ofNat] at hs3
  rw [hs3, Option.map_some', replace_colon]
  have hd2 : List.drop 2 (47 :: 47 :: rest) = rest := rfl
  rw [hd2, Join_Join [ob, externalName, repo] (replaceFirst 58 47 rest)]
  rfl

/-- C2. For a repository name without a slash, the external label
`"@" ++ repo ++ "//" ++ rest` alone is mapped to exactly one path,
`path.Join(ob, "external", repo, rest')` with `rest'` the rest with its first colon replaced
by a slash, whatever the workspace is. With `ob = "/ob"` and `ws = "/ws"`, `@repo//a/b:c`
resolves to `/ob/external/repo/a/b/c`. -/
theorem mapLabelsToFiles_external_label (repo rest ob ws1 ws2 : GoString) (h : 47 ∉ repo) :
    mapLabelsToFiles [lit "@" ++ repo ++ lit "//" ++ rest] ob ws1
      = some [Join [ob, lit "external", repo, replaceFirst 58 47 rest]] ∧
    mapLabelsToFiles [lit "@" ++ repo ++ lit "//" ++ rest] ob ws1
      = mapLabelsToFiles [lit "@" ++ repo ++ lit "//" ++ rest] ob ws2 ∧
    mapLabelsToFiles [lit "@repo//a/b:c"] (lit "/ob") (lit "/ws")
      = some [lit "/ob/external/repo/a/b/c"] := by
  have e : lit "@" ++ repo ++ lit "//" ++ rest = 64 :: (repo ++ 47 :: 47 :: rest) := by
    have h1 : lit "@" = [64] := by decide
    have h2 : lit "//" = [47, 47] := by decide
    rw [h1, h2]; simp
  have key : ∀ ws, mapLabelsToFiles [lit "@" ++ repo ++ lit "//" ++ rest] ob ws
      = some [Join [ob, lit "external", repo, replaceFirst 58 47 rest]] := by
    intro ws
    rw [e, mapLabelsToFiles_single _ _ _ (by simp), labelToFile_at repo rest ob ws h]
    rfl
  refine ⟨key ws1, ?_, by decide⟩
  rw [key ws1, key ws2]

theorem mapLabelsToFiles_external_label_witness :
    (47 : UInt8) ∉ lit "repo" ∧
    mapLabelsToFiles [lit "@" ++ lit "repo" ++ lit "//" ++ lit "a/b:c"] (lit "/ob") (lit "/ws")
      = some [Join [lit "/ob", lit "external", lit "repo", replaceFirst 58 47 (lit "a/b:c")]] ∧
    Join [lit "/ob", lit "external", lit "repo", replaceFirst 58 47 (lit "a/b:c")]
      = lit "/ob/external/repo/a/b/c" :=
  ⟨by decide,
    (mapLabelsToFiles_external_label (lit "repo") (lit "a/b:c") (lit "/ob") (lit "/ws")
      (lit "/ws") (by decide)).1,
    by decide⟩

/-! ## The fuel of `strings.TrimSpace` -/

theorem DecodeRune_width_pos (s : GoString) (h : s ≠ []) : 1 ≤ (DecodeRune s).2 := by
  obtain ⟨a, t, rfl⟩ := List.exists_cons_of_ne_nil h
  unfold DecodeRune
  simp only
  split_ifs <;>
    first
    | exact le_refl _
    | (split <;> first | exact le_refl _ | (split_ifs <;> simp))

theorem DecodeRune_width_zero (s : GoString) (h : (DecodeRune s).2 = 0) : s = [] := by
  by_contra hne
  have := DecodeRune_width_pos s hne
  omega

theorem lastRuneStart_le (s : GoString) (lim k : Nat) : lastRuneStart s lim k ≤ k := by
  induction k with
  | zero => exact le_refl _
  | succ k ih =>
    rw [lastRuneStart]
    split_ifs
    · exact Nat.le_succ_of_le ih
    · exact le_refl _

theorem DecodeLastRune_width_pos (s : GoString) (h : s ≠ []) : 1 ≤ (DecodeLastRune s).2 := by
  unfold DecodeLastRune
  cases hl : s.getLast? with
  | none => exact absurd (List.getLast?_eq_none_iff.mp hl) h
  | some last =>
    simp only
    split_ifs with h1 h2
    · exact le_refl _
    · exact le_refl _
    · have hlen : 0 < s.length := List.length_pos.mpr h
      have hle := lastRuneStart_le s (s.length - 4) (s.length - 1)
      have hne : (DecodeRune (List.drop (lastRuneStart s (s.length - 4) (s.length - 1) - 1) s)).2
          ≠ 0 := by
        intro h0
        rw [h0] at h2
        simp only [Nat.add_zero, ne_eq, not_not] at h2
        omega
      omega

/-- The fuel `len(s)` is enough for the loop of `TrimLeftFunc`: more fuel gives the same
result. -/
theorem trimLeftSpace_fuel (f1 f2 : Nat) (s : GoString) (h1 : s.length ≤ f1)
    (h2 : s.length ≤ f2) : trimLeftSpace f1 s = trimLeftSpace f2 s := by
  induction f1 generalizing f2 s with
  | zero =>
    have : s = [] := List.length_eq_zero.mp (Nat.le_zero.mp h1)
    subst this
    cases f2 <;> rfl
  | succ f1 ih =>
    cases s with
    | nil => cases f2 <;> rfl
    | cons a t =>
      cases f2 with
      | zero => simp at h2
      | succ f2 =>
        simp only [trimLeftSpace]
        split_ifs
        · have hp := DecodeRune_width_pos (a :: t) (by simp)
          apply ih
          · simp only [List.length_drop, List.length_cons] at h1 ⊢; omega
          · simp only [List.length_drop, List.length_cons] at h2 ⊢; omega
        · rfl

/-- The fuel `len(s)` is enough for the loop of `TrimRightFunc`. -/
theorem trimRightSpace_fuel (f1 f2 : Nat) (s : GoString) (h1 : s.length ≤ f1)
    (h2 : s.length ≤ f2) : trimRightSpace f1 s = trimRightSpace f2 s := by
  induction f1 generalizing f2 s with
  | zero =>
    have : s = [] := List.length_eq_zero.mp (Nat.le_zero.mp h1)
    subst this
    cases f2 <;> rfl
  | succ f1 ih =>
    cases s with
    | nil => cases f2 <;> rfl
    | cons a t =>
      cases f2 with
      | zero => simp at h2
      | succ f2 =>
        simp only [trimRightSpace]
        split_ifs
        · have hp := DecodeLastRune_width_pos (a :: t) (by simp)
          apply ih
          · simp only [List.length_take, List.length_cons] at h1 ⊢; omega
          · simp only [List.length_take, List.length_cons] at h2 ⊢; omega
        · rfl

end Ibazel
